import Mathlib

/-!
# The CIA container core of GodMode9 (`source/game/cia.c`)

A shallow embedding of the functions of `cia.c` and the properties proved about them.

Conventions of the embedding.

* Machine integers are natural numbers; every place where the C code can wrap carries an
  explicit reduction modulo `2 ^ w`.
* A byte buffer reached through a pointer is a function from byte offsets (relative to the
  pointer) to bytes. Bytes are natural numbers; every store of the code that casts to `u8`
  reduces modulo 256.
* `cia.c` includes `cia.h`, `common.h`, `sha.h`, `aes.h`, `ff.h`, which are not among the
  sources. The constants, `sizeof` values, structure layouts and integer widths they declare
  are parameters (`CiaConsts`, `TmdLayout`, `MetaLayout`); the SHA-256 primitive is a parameter
  `sha`, the block cipher a parameter `BlockCipher`; the file calls and the chained-block
  routines are modelled from the interface the design document gives for them.
-/

namespace Cia

/-! ## Parameters taken from the missing headers -/

/-- Constants and `sizeof` values that `cia.c` takes from `cia.h`, which is not among the
sources. `offset_bits` is the width in bits of the `offset_*` fields of `CiaInfo`.
`TMD_SIG_TYPE` lists the initialisers of the macro of that name, `TMD_ISSUER` the bytes of the
string literal of that name. -/
structure CiaConsts where
  CIA_HEADER_SIZE : Nat
  CIA_CERT_SIZE : Nat
  CIA_TICKET_SIZE : Nat
  CIA_TMD_SIZE_MIN : Nat
  CIA_TMD_SIZE_MAX : Nat
  CIA_META_SIZE : Nat
  CIA_MAX_CONTENTS : Nat
  sizeof_CiaHeader : Nat
  sizeof_Ticket : Nat
  sizeof_TitleMetaData : Nat
  sizeof_TmdContentChunk : Nat
  sizeof_content_index : Nat
  offset_bits : Nat
  TMD_SIG_TYPE : List Nat
  TMD_ISSUER : List Nat

/-- The record `CiaHeader`. Its first 0x20 bytes (the ones `GetCiaInfo` copies) hold
`size_header` (u32), `type` and `version` (u16 each), `size_cert`, `size_ticket`, `size_tmd`,
`size_meta` (u32 each) and `size_content` (u64); `content_index` is the byte array of the
content-presence bitmap, addressed by byte position. -/
structure CiaHeader where
  size_header : Nat
  type : Nat
  version : Nat
  size_cert : Nat
  size_ticket : Nat
  size_tmd : Nat
  size_meta : Nat
  size_content : Nat
  content_index : Nat → Nat

/-! ## `ValidateCiaHeader` -/

/-- `u32 ValidateCiaHeader(CiaHeader* header)`: 1 when one of the seven tests fires, else 0. -/
def ValidateCiaHeader (K : CiaConsts) (header : CiaHeader) : Nat :=
  if (header.size_header ≠ K.CIA_HEADER_SIZE) ∨
      (header.size_cert ≠ K.CIA_CERT_SIZE) ∨
      (header.size_ticket ≠ K.CIA_TICKET_SIZE) ∨
      (header.size_tmd < K.CIA_TMD_SIZE_MIN) ∨
      (header.size_tmd > K.CIA_TMD_SIZE_MAX) ∨
      (header.size_content = 0) ∨
      ((header.size_meta ≠ 0) ∧ (header.size_meta ≠ K.CIA_META_SIZE))
  then 1
  else 0

/-- The six structural invariants of a header, in the words of the data model. -/
def HeaderInvariants (K : CiaConsts) (h : CiaHeader) : Prop :=
  h.size_header = K.CIA_HEADER_SIZE ∧
  h.size_cert = K.CIA_CERT_SIZE ∧
  h.size_ticket = K.CIA_TICKET_SIZE ∧
  (K.CIA_TMD_SIZE_MIN ≤ h.size_tmd ∧ h.size_tmd ≤ K.CIA_TMD_SIZE_MAX) ∧
  h.size_content ≠ 0 ∧
  (h.size_meta = 0 ∨ h.size_meta = K.CIA_META_SIZE)

instance (K : CiaConsts) (h : CiaHeader) : Decidable (HeaderInvariants K h) := by
  unfold HeaderInvariants
  infer_instance

/-! ## `GetCiaInfo` -/

/-- The record `CiaInfo`: the first 0x20 bytes repeat those of `CiaHeader`; then
`size_content_list` (u32), `size_cia` (u64), six `offset_*` fields of `offset_bits` bits and
`max_contents` (u32). -/
structure CiaInfo where
  size_header : Nat
  type : Nat
  version : Nat
  size_cert : Nat
  size_ticket : Nat
  size_tmd : Nat
  size_meta : Nat
  size_content : Nat
  size_content_list : Nat
  size_cia : Nat
  offset_cert : Nat
  offset_ticket : Nat
  offset_tmd : Nat
  offset_content : Nat
  offset_meta : Nat
  offset_content_list : Nat
  max_contents : Nat

/-- Modelled from the spec: the macro `align(v, a)` of `common.h`, which is not among the
sources; the spec gives `align(n) = ((n + 63) / 64) * 64`. It is evaluated at the unsigned
`w`-bit type of its operand, so the addition wraps modulo `2 ^ w`. -/
def align (w v a : Nat) : Nat :=
  (v + (a - 1)) % 2 ^ w / a * a

/-- The alignment function of the spec over the natural numbers (no wrap-around):
`align(n) = ((n + 63) / 64) * 64`. -/
def alignSpec (n : Nat) : Nat :=
  (n + 63) / 64 * 64

/-- Unsigned 32-bit subtraction `a - b`. -/
def sub32 (a b : Nat) : Nat :=
  (a % 2 ^ 32 + (2 ^ 32 - b % 2 ^ 32)) % 2 ^ 32

/-- `u32 GetCiaInfo(CiaInfo* info, CiaHeader* header)`. The size fields are u32 and
`size_content`, `size_cia` are u64; an `offset_*` field has `K.offset_bits` bits (32 or 64), so
a sum stored into it is reduced modulo `2 ^ K.offset_bits`. -/
def GetCiaInfo (K : CiaConsts) (info : CiaInfo) (header : CiaHeader) : Nat × CiaInfo :=
  -- memcpy(info, header, 0x20)
  let info := { info with
    size_header := header.size_header, type := header.type, version := header.version,
    size_cert := header.size_cert, size_ticket := header.size_ticket,
    size_tmd := header.size_tmd, size_meta := header.size_meta,
    size_content := header.size_content }
  let info := { info with offset_cert := align 32 header.size_header 64 % 2 ^ K.offset_bits }
  let info := { info with
    offset_ticket := (info.offset_cert + align 32 header.size_cert 64) % 2 ^ K.offset_bits }
  let info := { info with
    offset_tmd := (info.offset_ticket + align 32 header.size_ticket 64) % 2 ^ K.offset_bits }
  let info := { info with
    offset_content := (info.offset_tmd + align 32 header.size_tmd 64) % 2 ^ K.offset_bits }
  let info := { info with
    offset_meta :=
      if header.size_meta ≠ 0 then
        (info.offset_content + align 64 header.size_content 64) % 2 ^ K.offset_bits
      else 0 }
  let info := { info with
    offset_content_list := (info.offset_tmd + K.sizeof_TitleMetaData) % 2 ^ K.offset_bits }
  let info := { info with size_content_list := sub32 info.size_tmd K.sizeof_TitleMetaData }
  let info := { info with
    size_cia :=
      if header.size_meta ≠ 0 then (info.offset_meta + info.size_meta) % 2 ^ K.offset_bits
      else (info.offset_content + info.size_content) % 2 ^ 64 }
  let info := { info with
    max_contents := sub32 info.size_tmd K.sizeof_TitleMetaData / K.sizeof_TmdContentChunk }
  (0, info)

/-- Conditions on the constants of `cia.h` under which the fixed part of the layout is
meaningful: the offset fields have 32 to 64 bits, the fixed sections are not empty, the
fixed record of the TMD is not larger than the smallest admitted TMD, and the aligned sizes of
header, certificate chain, ticket and largest TMD add up below `2 ^ 32`. -/
def CiaConsts.LayoutFits (K : CiaConsts) : Prop :=
  32 ≤ K.offset_bits ∧ K.offset_bits ≤ 64 ∧
  0 < K.CIA_HEADER_SIZE ∧ 0 < K.CIA_CERT_SIZE ∧ 0 < K.CIA_TICKET_SIZE ∧
  0 < K.CIA_TMD_SIZE_MIN ∧ K.sizeof_TitleMetaData ≤ K.CIA_TMD_SIZE_MIN ∧
  alignSpec K.CIA_HEADER_SIZE + alignSpec K.CIA_CERT_SIZE + alignSpec K.CIA_TICKET_SIZE +
    alignSpec K.CIA_TMD_SIZE_MAX < 2 ^ 32

instance (K : CiaConsts) : Decidable K.LayoutFits := by
  unfold CiaConsts.LayoutFits
  infer_instance

/-- The values of the constants for the CTR container format: a 0x2020-byte header with an
0x2000-byte bitmap, an 0xA00-byte certificate chain, an 0x350-byte ticket, an 0xB04-byte TMD
record followed by 0x30-byte chunk records, an 0x3AC0-byte meta section, 32-bit offsets. -/
def ctrConsts : CiaConsts where
  CIA_HEADER_SIZE := 0x2020
  CIA_CERT_SIZE := 0xA00
  CIA_TICKET_SIZE := 0x350
  CIA_TMD_SIZE_MIN := 0xB04
  CIA_TMD_SIZE_MAX := 0xB04 + 101 * 0x30
  CIA_META_SIZE := 0x3AC0
  CIA_MAX_CONTENTS := 101
  sizeof_CiaHeader := 0x2020
  sizeof_Ticket := 0x350
  sizeof_TitleMetaData := 0xB04
  sizeof_TmdContentChunk := 0x30
  sizeof_content_index := 0x2000
  offset_bits := 32
  TMD_SIG_TYPE := [0x00, 0x01, 0x00, 0x04]
  TMD_ISSUER := [0x52, 0x6F, 0x6F, 0x74, 0x2D, 0x43, 0x41, 0x30, 0x30, 0x30, 0x30, 0x30, 0x30,
    0x30, 0x33, 0x2D, 0x43, 0x50, 0x30, 0x30, 0x30, 0x30, 0x30, 0x30, 0x30, 0x62]

/-- The same constants with 64-bit offset fields. -/
def ctrConsts64 : CiaConsts :=
  { ctrConsts with offset_bits := 64 }

/-- A header with every field zero and an empty bitmap. -/
def zeroHeader : CiaHeader :=
  ⟨0, 0, 0, 0, 0, 0, 0, 0, fun _ => 0⟩

/-- A `CiaInfo` with every field zero. -/
def zeroInfo : CiaInfo :=
  ⟨0, 0, 0, 0, 0, 0, 0, 0, 0, 0, 0, 0, 0, 0, 0, 0, 0⟩

/-- A header with the fixed sizes of the CTR format, the smallest TMD, a meta section and the
given content size. -/
def ctrHeader (size_content : Nat) : CiaHeader :=
  { zeroHeader with
    size_header := 0x2020, size_cert := 0xA00, size_ticket := 0x350, size_tmd := 0xB04,
    size_meta := 0x3AC0, size_content := size_content }

/-! ## Byte buffers -/

/-- A byte buffer reached through a pointer: the byte at each offset from the pointer. -/
abbrev Mem := Nat → Nat

/-- `memset(m + dst, c, n)`. -/
def memset (m : Mem) (dst c n : Nat) : Mem :=
  fun a => if dst ≤ a ∧ a < dst + n then c % 256 else m a

/-- `memcpy(m + dst, src, n)` from a source buffer that does not overlap `m`. -/
def memcpy (m : Mem) (dst : Nat) (src : Mem) (n : Nat) : Mem :=
  fun a => if dst ≤ a ∧ a < dst + n then src (a - dst) else m a

/-- The assignment `m[dst] = (u8) v`. -/
def store8 (m : Mem) (dst v : Nat) : Mem :=
  fun a => if a = dst then v % 256 else m a

/-- `snprintf((char*) (m + dst), size, s)` for a format string `s` without conversion
specifications and without NUL: at most `size - 1` characters of `s` are written, followed by
a terminating NUL. -/
def snprintf (m : Mem) (dst size : Nat) (s : List Nat) : Mem :=
  fun a =>
    if dst ≤ a ∧ a < dst + min s.length (size - 1) then s.getD (a - dst) 0
    else if 0 < size ∧ a = dst + min s.length (size - 1) then 0
    else m a

/-- The `n` bytes of `m` from offset `src` on. -/
def readBytes (m : Mem) (src n : Nat) : List Nat :=
  (List.range n).map fun j => m (src + j)

/-- Modelled from the spec: the helper `getbe16` of `common.h`, which is not among the
sources: the big-endian 16-bit value of the two bytes at `p`. -/
def getbe16 (m : Mem) (p : Nat) : Nat :=
  m p % 256 * 256 + m (p + 1) % 256

/-- Modelled from the spec: the helper `getbe64` of `common.h`, which is not among the
sources: the big-endian 64-bit value of the eight bytes at `p`. -/
def getbe64 (m : Mem) (p : Nat) : Nat :=
  (List.range 8).foldl (fun acc j => acc * 256 + m (p + j) % 256) 0

/-- The SHA-256 primitive of `sha.h`, an external pure function: `sha bytes j` is byte `j`
(`0 ≤ j < 32`) of the digest of `bytes`. -/
abbrev Sha256 := List Nat → Nat → Nat

/-- Store a 32-byte digest at offset `dst`. -/
def storeDigest (m : Mem) (dst : Nat) (d : Nat → Nat) : Mem :=
  fun a => if dst ≤ a ∧ a < dst + 0x20 then d (a - dst) else m a

/-- `sha_quick(m + dst, m + src, len, SHA256_MODE)`: the digest of the `len` bytes at `src` is
stored at `dst`. -/
def sha_quick (sha : Sha256) (m : Mem) (dst src len : Nat) : Mem :=
  storeDigest m dst (sha (readBytes m src len))

/-! ## The title metadata record -/

/-- Byte offsets of the fields of `TitleMetaData`, `TmdContentInfo` and `TmdContentChunk` that
`cia.c` accesses. The structures are declared in `cia.h`, which is not among the sources, so
the offsets are parameters. The first ten are offsets in `TitleMetaData` (`sig_type[4]`,
`signature[0x100]`, `issuer[0x40]`, `version`, `title_id[8]`, `title_type[4]`, `save_size[4]`,
`content_count[2]`, `contentinfo_hash[0x20]`, `contentinfo[64]`); `info_cmd_count` (2 bytes)
and `info_hash` (0x20 bytes) are offsets in `TmdContentInfo`; `chunk_index` (2 bytes) and
`chunk_size` (8 bytes) are offsets in `TmdContentChunk`. -/
structure TmdLayout where
  sig_type : Nat
  signature : Nat
  issuer : Nat
  version : Nat
  title_id : Nat
  title_type : Nat
  save_size : Nat
  content_count : Nat
  contentinfo_hash : Nat
  contentinfo : Nat
  sizeof_TmdContentInfo : Nat
  info_cmd_count : Nat
  info_hash : Nat
  chunk_index : Nat
  chunk_size : Nat

/-- The fields are members of C structures: they lie inside their structure and do not
overlap. They are taken in the order of the CTR format, other members may lie between them.
The largest TMD (65535 chunks) has a size below `2 ^ 32`. -/
def TmdLayout.Valid (K : CiaConsts) (L : TmdLayout) : Prop :=
  L.sig_type + 4 ≤ L.signature ∧
  L.signature + 0x100 ≤ L.issuer ∧
  L.issuer + 0x40 ≤ L.version ∧
  L.version + 1 ≤ L.title_id ∧
  L.title_id + 8 ≤ L.title_type ∧
  L.title_type + 4 ≤ L.save_size ∧
  L.save_size + 4 ≤ L.content_count ∧
  L.content_count + 2 ≤ L.contentinfo_hash ∧
  L.contentinfo_hash + 0x20 ≤ L.contentinfo ∧
  L.contentinfo + 64 * L.sizeof_TmdContentInfo ≤ K.sizeof_TitleMetaData ∧
  L.info_cmd_count + 2 ≤ L.info_hash ∧
  L.info_hash + 0x20 ≤ L.sizeof_TmdContentInfo ∧
  L.chunk_index + 2 ≤ L.chunk_size ∧
  L.chunk_size + 8 ≤ K.sizeof_TmdContentChunk ∧
  K.sizeof_TitleMetaData + 65535 * K.sizeof_TmdContentChunk < 2 ^ 32

instance (K : CiaConsts) (L : TmdLayout) : Decidable (L.Valid K) := by
  unfold TmdLayout.Valid
  infer_instance

/-- The layout of the CTR format: `TitleMetaData` has 0xB04 bytes, `TmdContentInfo` is
`index[2]`, `cmd_count[2]`, `hash[0x20]` and `TmdContentChunk` is `id[4]`, `index[2]`,
`type[2]`, `size[8]`, `hash[0x20]`. -/
def ctrLayout : TmdLayout where
  sig_type := 0x000
  signature := 0x004
  issuer := 0x140
  version := 0x180
  title_id := 0x18C
  title_type := 0x194
  save_size := 0x19A
  content_count := 0x1DE
  contentinfo_hash := 0x1E4
  contentinfo := 0x204
  sizeof_TmdContentInfo := 0x24
  info_cmd_count := 2
  info_hash := 4
  chunk_index := 4
  chunk_size := 8

/-- Modelled from the spec: the macro `CIA_TMD_SIZE_N(n)` of `cia.h`, which is not among the
sources, the fixed TMD-size formula: the fixed record followed by `n` chunk records, in
unsigned 32-bit arithmetic. -/
def CIA_TMD_SIZE_N (K : CiaConsts) (n : Nat) : Nat :=
  (K.sizeof_TitleMetaData + n * K.sizeof_TmdContentChunk) % 2 ^ 32

/-! ## `FixTmdHashes` -/

/-- The loop of `FixTmdHashes`: `for (u32 i = 0, kc = 0; i < 64 && kc < content_count; i++)`.
The first argument bounds the number of iterations; 64 are enough since `i` counts up to 64.
`content_list` is the offset of the chunk records, `(TmdContentChunk*) (tmd + 1)`. -/
def FixTmdHashes_loop (K : CiaConsts) (L : TmdLayout) (sha : Sha256) (content_count : Nat) :
    Nat → Nat → Nat → Mem → Mem
  | 0, _, _, tmd => tmd
  | fuel + 1, i, kc, tmd =>
    if i < 64 ∧ kc < content_count then
      let content_list := K.sizeof_TitleMetaData
      let info := L.contentinfo + i * L.sizeof_TmdContentInfo
      let k := getbe16 tmd (info + L.info_cmd_count)
      let tmd := sha_quick sha tmd (info + L.info_hash)
        (content_list + kc * K.sizeof_TmdContentChunk) (k * K.sizeof_TmdContentChunk % 2 ^ 32)
      FixTmdHashes_loop K L sha content_count fuel (i + 1) ((kc + k) % 2 ^ 32) tmd
    else tmd

/-- `u32 FixTmdHashes(TitleMetaData* tmd)`; the buffer `tmd` holds the record and the chunk
records that follow it. -/
def FixTmdHashes (K : CiaConsts) (L : TmdLayout) (sha : Sha256) (tmd : Mem) : Nat × Mem :=
  let content_count := getbe16 tmd L.content_count
  let tmd := FixTmdHashes_loop K L sha content_count 64 0 0 tmd
  let tmd := sha_quick sha tmd L.contentinfo_hash L.contentinfo
    (64 * L.sizeof_TmdContentInfo % 2 ^ 32)
  (0, tmd)

/-- The value of `cmd_count` of `contentinfo[i]`. -/
def cmdCount (L : TmdLayout) (tmd : Mem) (i : Nat) : Nat :=
  getbe16 tmd (L.contentinfo + i * L.sizeof_TmdContentInfo + L.info_cmd_count)

/-- The offset of the `hash` field of `contentinfo[i]`. -/
def infoHash (L : TmdLayout) (i : Nat) : Nat :=
  L.contentinfo + i * L.sizeof_TmdContentInfo + L.info_hash

/-- The running cursor of the walk before entry `i`: it starts at 0 and each entry advances
it by its `cmd_count`. -/
def cursor (L : TmdLayout) (tmd : Mem) : Nat → Nat
  | 0 => 0
  | i + 1 => cursor L tmd i + cmdCount L tmd i

/-- The raw bytes of the `k` contiguous chunk records starting at chunk `kc`. -/
def chunkBytes (K : CiaConsts) (tmd : Mem) (kc k : Nat) : List Nat :=
  readBytes tmd (K.sizeof_TitleMetaData + kc * K.sizeof_TmdContentChunk)
    (k * K.sizeof_TmdContentChunk)

/-- The buffer after the walk has passed the entries below `n`, as the claim describes it:
entry `i` receives the digest of its chunk records when the cursor before it is below the
content count `c`, and is left alone otherwise. All reads are from the initial buffer. -/
def walked (K : CiaConsts) (L : TmdLayout) (sha : Sha256) (tmd : Mem) (c : Nat) : Nat → Mem
  | 0 => tmd
  | n + 1 =>
    if cursor L tmd n < c then
      storeDigest (walked K L sha tmd c n) (infoHash L n)
        (sha (chunkBytes K tmd (cursor L tmd n) (cmdCount L tmd n)))
    else walked K L sha tmd c n

/-- The offsets of the hashes that `FixTmdHashes` may write: `contentinfo_hash` and the `hash`
fields of the 64 entries. -/
def IsHashByte (L : TmdLayout) (a : Nat) : Prop :=
  (L.contentinfo_hash ≤ a ∧ a < L.contentinfo_hash + 0x20) ∨
  ∃ i, i < 64 ∧ infoHash L i ≤ a ∧ a < infoHash L i + 0x20

instance (L : TmdLayout) (a : Nat) : Decidable (IsHashByte L a) := by
  unfold IsHashByte
  infer_instance

/-! ## `FixCiaHeaderForTmd` -/

/-- The loop of `FixCiaHeaderForTmd`: `for (u32 i = 0; i < content_count; i++)`; the first
argument bounds the number of iterations, `content_count` are enough. The sum is a `u64`, the
bitmap byte a `u8`. -/
def FixCiaHeaderForTmd_loop (K : CiaConsts) (L : TmdLayout) (tmd : Mem) (content_count : Nat) :
    Nat → Nat → CiaHeader → CiaHeader
  | 0, _, header => header
  | fuel + 1, i, header =>
    if i < content_count then
      let chunk := K.sizeof_TitleMetaData + i * K.sizeof_TmdContentChunk
      let index := getbe16 tmd (chunk + L.chunk_index)
      let header := { header with
        size_content := (header.size_content + getbe64 tmd (chunk + L.chunk_size)) % 2 ^ 64 }
      let header := { header with
        content_index := fun p =>
          if p = index / 8 then (header.content_index p ||| (1 <<< (7 - index % 8))) % 256
          else header.content_index p }
      FixCiaHeaderForTmd_loop K L tmd content_count fuel (i + 1) header
    else header

/-- `u32 FixCiaHeaderForTmd(CiaHeader* header, TitleMetaData* tmd)`. The `memset` clears the
`sizeof(header->content_index)` bytes of the bitmap. -/
def FixCiaHeaderForTmd (K : CiaConsts) (L : TmdLayout) (header : CiaHeader) (tmd : Mem) :
    Nat × CiaHeader :=
  let content_count := getbe16 tmd L.content_count
  let header := { header with size_content := 0 }
  let header := { header with size_tmd := CIA_TMD_SIZE_N K content_count }
  let header := { header with
    content_index := fun p => if p < K.sizeof_content_index then 0 else header.content_index p }
  (0, FixCiaHeaderForTmd_loop K L tmd content_count content_count 0 header)

/-- The declared size of chunk `i`: the big-endian 64-bit value of its `size` field. -/
def chunkSize (K : CiaConsts) (L : TmdLayout) (tmd : Mem) (i : Nat) : Nat :=
  getbe64 tmd (K.sizeof_TitleMetaData + i * K.sizeof_TmdContentChunk + L.chunk_size)

/-- The sum of the declared sizes of the first `c` chunks. -/
def sizeSum (K : CiaConsts) (L : TmdLayout) (tmd : Mem) : Nat → Nat
  | 0 => 0
  | c + 1 => sizeSum K L tmd c + chunkSize K L tmd c

/-! ## `BuildFakeTmd` -/

/-- `u32 BuildFakeTmd(TitleMetaData* tmd, u8* title_id, u32 n_contents)`. `title_id` points to
8 bytes outside the buffer `tmd`. -/
def BuildFakeTmd (K : CiaConsts) (L : TmdLayout) (tmd : Mem) (title_id : Mem)
    (n_contents : Nat) : Nat × Mem :=
  let sig_type : Mem := fun j => K.TMD_SIG_TYPE.getD j 0
  if n_contents > K.CIA_MAX_CONTENTS then (1, tmd)
  else
    let tmd := memset tmd 0 0x00 (CIA_TMD_SIZE_N K n_contents)
    let tmd := memcpy tmd L.sig_type sig_type 4
    let tmd := memset tmd L.signature 0xFF 0x100
    let tmd := snprintf tmd L.issuer 0x40 K.TMD_ISSUER
    let tmd := store8 tmd L.version 0x01
    let tmd := memcpy tmd L.title_id title_id 8
    let tmd := store8 tmd (L.title_type + 3) 0x40
    let tmd := memset tmd L.save_size 0x00 4
    let tmd := store8 tmd (L.content_count + 1) n_contents
    let tmd := memset tmd L.contentinfo_hash 0xFF 0x20
    let tmd := store8 tmd (L.contentinfo + 0 * L.sizeof_TmdContentInfo + L.info_cmd_count + 1)
      n_contents
    let tmd := memset tmd (L.contentinfo + 0 * L.sizeof_TmdContentInfo + L.info_hash) 0xFF 0x20
    (0, tmd)

/-- The record the synthesizer is described to produce, byte by byte: zero everywhere except
the signature type, the `0xFF` signature, the issuer string, version 1, the title id,
`title_type[3] = 0x40`, the low bytes of the two counts and the two `0xFF` hashes. -/
def fakeTmdBytes (K : CiaConsts) (L : TmdLayout) (title_id : Mem) (n_contents : Nat) : Mem :=
  fun a =>
    if L.sig_type ≤ a ∧ a < L.sig_type + 4 then K.TMD_SIG_TYPE.getD (a - L.sig_type) 0
    else if L.signature ≤ a ∧ a < L.signature + 0x100 then 0xFF
    else if L.issuer ≤ a ∧ a < L.issuer + K.TMD_ISSUER.length then
      K.TMD_ISSUER.getD (a - L.issuer) 0
    else if a = L.version then 1
    else if L.title_id ≤ a ∧ a < L.title_id + 8 then title_id (a - L.title_id)
    else if a = L.title_type + 3 then 0x40
    else if a = L.content_count + 1 then n_contents
    else if L.contentinfo_hash ≤ a ∧ a < L.contentinfo_hash + 0x20 then 0xFF
    else if a = L.contentinfo + L.info_cmd_count + 1 then n_contents
    else if L.contentinfo + L.info_hash ≤ a ∧ a < L.contentinfo + L.info_hash + 0x20 then 0xFF
    else 0

/-- Conditions on the constants under which `BuildFakeTmd` is meaningful: an accepted content
count fits the single byte the code stores, and the issuer string fits its field with the
terminating NUL. -/
def CiaConsts.FakeTmdFits (K : CiaConsts) : Prop :=
  K.CIA_MAX_CONTENTS ≤ 255 ∧ K.TMD_ISSUER.length < 0x40

instance (K : CiaConsts) : Decidable K.FakeTmdFits := by
  unfold CiaConsts.FakeTmdFits
  infer_instance

/-! ## Sample data -/

/-- A toy stand-in for the digest function, for evaluating the definitions. -/
def toySha : Sha256 :=
  fun bytes j => (bytes.sum + bytes.length + j) % 256

/-- A buffer of zero bytes. -/
def zeroMem : Mem :=
  fun _ => 0

/-- The title id `00040000 00132201` as 8 bytes. -/
def sampleTitleId : Mem :=
  fun j => [0x00, 0x04, 0x00, 0x00, 0x00, 0x13, 0x22, 0x01].getD j 0

/-- The TMD of the concrete scenario: `BuildFakeTmd` for one content, then one chunk record
with index 0 and declared size 0x1000 (byte 6 of its big-endian `size` field is 0x10). -/
def sampleTmd : Mem :=
  store8 (BuildFakeTmd ctrConsts ctrLayout zeroMem sampleTitleId 1).2 (0xB04 + 8 + 6) 0x10

/-- A TMD declaring two chunks whose declared sizes are `2 ^ 64 - 1` (eight `0xFF` bytes) and
1. -/
def overflowTmd : Mem :=
  store8 (memset (store8 zeroMem (0x1DE + 1) 2) (0xB04 + 8) 0xFF 8) (0xB04 + 0x30 + 8 + 7) 1

/-! ## The content-presence bitmap -/

/-- The content index of chunk `i`: the big-endian 16-bit value of its `index` field. -/
def chunkIndex (K : CiaConsts) (L : TmdLayout) (tmd : Mem) (i : Nat) : Nat :=
  getbe16 tmd (K.sizeof_TitleMetaData + i * K.sizeof_TmdContentChunk + L.chunk_index)

/-- The bitmap `b0` after the chunks below `n` have been entered: chunk `i` sets the bit
`1 << (7 - index % 8)` of byte `index / 8`. -/
def bitmapAfter (K : CiaConsts) (L : TmdLayout) (tmd : Mem) (b0 : Nat → Nat) : Nat → Nat → Nat
  | 0 => b0
  | n + 1 => fun p =>
    if p = chunkIndex K L tmd n / 8 then
      (bitmapAfter K L tmd b0 n p ||| (1 <<< (7 - chunkIndex K L tmd n % 8))) % 256
    else bitmapAfter K L tmd b0 n p

/-- `u32 GetTmdCtr(u8* ctr, TmdContentChunk* chunk)`: `ctr` is the output buffer, `chunk` the
chunk record, which is only read. -/
def GetTmdCtr (L : TmdLayout) (ctr : Mem) (chunk : Mem) : Nat × Mem :=
  let ctr := memset ctr 0 0 16
  let ctr := memcpy ctr 0 (fun j => chunk (L.chunk_index + j)) 2
  (0, ctr)

/-- The block cipher behind `aes.h`, an external primitive: `enc key block` and
`dec key block` are the encryption and the decryption of one 16-byte block under a 16-byte
key (the key that `setup_aeskey` and `use_aeskey` select). -/
structure BlockCipher where
  enc : List Nat → List Nat → List Nat
  dec : List Nat → List Nat → List Nat

/-- The block cipher is invertible and works on 16-byte blocks. -/
def BlockCipher.Invertible (C : BlockCipher) : Prop :=
  (∀ key block, block.length = 16 → (C.enc key block).length = 16) ∧
  (∀ key block, block.length = 16 → (C.dec key block).length = 16) ∧
  (∀ key block, block.length = 16 → C.dec key (C.enc key block) = block)

/-- Bytewise exclusive or of two blocks. -/
def xorBlock (a b : List Nat) : List Nat :=
  List.zipWith (fun x y => x ^^^ y) a b

/-- Modelled from the spec: `cbc_encrypt(data, data, blocks, mode, ctr)` of `aes.h`, which is
not among the sources: chained-block encryption in place over the first `blocks` 16-byte
blocks of the buffer, each plaintext block combined with the previous ciphertext block (the
initialization vector for the first); the chaining value is carried on in `ctr`. The bytes
behind the last block are not touched. -/
def cbc_encrypt (C : BlockCipher) (key : List Nat) : Nat → List Nat → List Nat →
    List Nat × List Nat
  | 0, ctr, data => (data, ctr)
  | blocks + 1, ctr, data =>
    let c := C.enc key (xorBlock (data.take 16) ctr)
    let r := cbc_encrypt C key blocks c (data.drop 16)
    (c ++ r.1, r.2)

/-- Modelled from the spec: `cbc_decrypt(data, data, blocks, mode, ctr)` of `aes.h`, which is
not among the sources: chained-block decryption in place over the first `blocks` 16-byte
blocks of the buffer; the chaining value is carried on in `ctr`. -/
def cbc_decrypt (C : BlockCipher) (key : List Nat) : Nat → List Nat → List Nat →
    List Nat × List Nat
  | 0, ctr, data => (data, ctr)
  | blocks + 1, ctr, data =>
    let c := data.take 16
    let r := cbc_decrypt C key blocks c (data.drop 16)
    (xorBlock (C.dec key c) ctr ++ r.1, r.2)

/-- `u32 DecryptCiaContentSequential(u8* data, u32 size, u8* ctr, const u8* titlekey)`: the
result is the return value, the buffer `data` and the buffer `ctr`. The key is the 16 bytes
copied from `titlekey`. -/
def DecryptCiaContentSequential (C : BlockCipher) (data : List Nat) (size : Nat)
    (ctr : List Nat) (titlekey : Mem) : Nat × List Nat × List Nat :=
  let tik := readBytes titlekey 0 16
  let r := cbc_decrypt C tik (size / 16) ctr data
  (0, r.1, r.2)

/-- `u32 EncryptCiaContentSequential(u8* data, u32 size, u8* ctr, const u8* titlekey)`. -/
def EncryptCiaContentSequential (C : BlockCipher) (data : List Nat) (size : Nat)
    (ctr : List Nat) (titlekey : Mem) : Nat × List Nat × List Nat :=
  let tik := readBytes titlekey 0 16
  let r := cbc_encrypt C tik (size / 16) ctr data
  (0, r.1, r.2)

/-- A toy invertible block cipher for evaluating the definitions: every byte of the block is
combined with the first key byte. -/
def toyCipher : BlockCipher where
  enc := fun key block => block.map fun x => x ^^^ key.headD 0
  dec := fun key block => block.map fun x => x ^^^ key.headD 0

/-- A sample chunk record with content index `0x0102`. -/
def sampleChunk : Mem :=
  store8 (store8 zeroMem 4 0x01) 5 0x02

/-- A sample title key. -/
def sampleKey : Mem :=
  fun j => (j * 7 + 3) % 256

/-- A sample content buffer of 32 bytes. -/
def sampleContent : List Nat :=
  (List.range 32).map fun j => (j * 5 + 1) % 256

/-- A sample content buffer of 17 bytes, one more than a block. -/
def sampleContent17 : List Nat :=
  (List.range 17).map fun j => (j * 5 + 1) % 256

/-- The initialization vector of the sample chunk, as `GetTmdCtr` derives it. -/
def sampleIv : List Nat :=
  readBytes (GetTmdCtr ctrLayout zeroMem sampleChunk).2 0 16

/-! ## `BuildCiaCert` -/

/-- Modelled from the spec: the file object `FIL` of `ff.h`, which is not among the sources,
"a named byte-addressable resource exposing open/seek/read/close": the bytes of the file, the
read position, and the positions at which a read fails with a disk error. -/
structure FIL where
  content : List Nat
  fptr : Nat
  err : Nat → Bool

/-- Modelled from the spec: `f_lseek(fp, ofs)` of `ff.h`: the read position moves to `ofs`,
at most to the end of the file. -/
def f_lseek (fp : FIL) (ofs : Nat) : FIL :=
  { fp with fptr := min ofs fp.content.length }

/-- Modelled from the spec: `f_read(fp, buff + dst, btr, &bytes_read)` of `ff.h`: on a disk
error nothing is read; otherwise the bytes from the read position on, at most `btr` and at
most up to the end of the file, are stored into the buffer. The result is the file object,
the buffer and `bytes_read`. -/
def f_read (fp : FIL) (buff : Mem) (dst btr : Nat) : FIL × Mem × Nat :=
  if fp.err fp.fptr then (fp, buff, 0)
  else
    let n := min btr (fp.content.length - fp.fptr)
    ({ fp with fptr := fp.fptr + n },
      fun a => if dst ≤ a ∧ a < dst + n then fp.content.getD (fp.fptr + (a - dst)) 0 else buff a,
      n)

/-- The constant `cert_hash_expected` of `BuildCiaCert`. -/
def cert_hash_expected : List Nat :=
  [0xC7, 0x2E, 0x1C, 0xA5, 0x61, 0xDC, 0x9B, 0xC8, 0x05, 0x58, 0x58, 0x9C, 0x63, 0x08, 0x1C, 0x8A,
   0x10, 0x78, 0xDF, 0x42, 0x99, 0x80, 0x3A, 0x68, 0x58, 0xF0, 0x41, 0xF9, 0xCB, 0x10, 0xE6, 0x35]

/-- The test `memcmp(cert_hash, cert_hash_expected, 0x20) == 0` on a digest. -/
def digestMatches (d : Nat → Nat) : Prop :=
  ∀ j, j < 0x20 → d j = cert_hash_expected.getD j 0

instance (d : Nat → Nat) : Decidable (digestMatches d) := by
  unfold digestMatches
  infer_instance

/-- `u32 BuildCiaCert(u8* ciacert)`. `db` is the outcome of
`f_open(&db, "1:/dbs/certs.db", FA_READ | FA_OPEN_EXISTING)`: `none` when the result is not
`FR_OK`, the opened file otherwise. The results of `f_lseek` and `f_read` and `bytes_read` are
not looked at by the code. -/
def BuildCiaCert (K : CiaConsts) (sha : Sha256) (db : Option FIL) (ciacert : Mem) : Nat × Mem :=
  match db with
  | none => (1, ciacert)
  | some db =>
    let db := f_lseek db 0x0C10
    let r := f_read db ciacert 0x000 0x1F0
    let db := f_lseek r.1 0x3A00
    let r := f_read db r.2.1 0x1F0 0x210
    let db := f_lseek r.1 0x3F10
    let r := f_read db r.2.1 0x400 0x300
    let db := f_lseek r.1 0x3C10
    let r := f_read db r.2.1 0x700 0x300
    let ciacert := r.2.1
    let cert_hash := sha (readBytes ciacert 0 K.CIA_CERT_SIZE)
    if ¬ digestMatches cert_hash then (1, ciacert)
    else (0, ciacert)

/-- A store that opens but on which every read fails. -/
def unreadableDb : FIL :=
  ⟨[], 0, fun _ => true⟩

/-- A store that opens and is empty, so that every read returns no bytes. -/
def emptyDb : FIL :=
  ⟨[], 0, fun _ => false⟩

/-- The store can be read at the four ranges: no disk error at their start and the file holds
all of them (the last one ends at `0x3F10 + 0x300`). -/
def FIL.Readable (db : FIL) : Prop :=
  db.err 0x0C10 = false ∧ db.err 0x3A00 = false ∧ db.err 0x3F10 = false ∧
  db.err 0x3C10 = false ∧ 0x4210 ≤ db.content.length

/-- A readable sample store of 0x4210 bytes. -/
def sampleDb : FIL :=
  ⟨List.replicate 0x4210 0x5A, 0, fun _ => false⟩

/-- One `f_lseek` followed by one `f_read`, on the state (file object, buffer, `bytes_read`). -/
def certStage (r : FIL × Mem × Nat) (ofs dst btr : Nat) : FIL × Mem × Nat :=
  f_read (f_lseek r.1 ofs) r.2.1 dst btr

/-- The buffer after the four seek and read pairs of `BuildCiaCert`. -/
def certBlob (db : FIL) (ciacert : Mem) : Mem :=
  (certStage (certStage (certStage (certStage (db, ciacert, 0) 0x0C10 0x000 0x1F0)
    0x3A00 0x1F0 0x210) 0x3F10 0x400 0x300) 0x3C10 0x700 0x300).2.1

/-- The value of `bytes_read` after `f_lseek(fp, ofs)` and `f_read(fp, _, btr, &bytes_read)`:
it is below `btr` when the read fails or is short. -/
def bytesRead (fp : FIL) (ofs btr : Nat) : Nat :=
  (f_read (f_lseek fp ofs) (fun _ => 0) 0 btr).2.2

/-- The store `db` with a disk error at the file position `bad`. -/
def withError (db : FIL) (bad : Nat) : FIL :=
  { db with err := fun p => p == bad || db.err p }

/-! ## `BuildCiaMeta` -/

/-- Byte offsets and sizes of the members of `CiaMeta` that `cia.c` accesses. The structure is
declared in `cia.h`, which is not among the sources, so they are parameters: the array
`dependencies`, the integer `core_version`, the array `smdh`, and the size of the structure. -/
structure MetaLayout where
  dependencies : Nat
  sizeof_dependencies : Nat
  core_version : Nat
  sizeof_core_version : Nat
  smdh : Nat
  sizeof_smdh : Nat
  sizeof_CiaMeta : Nat

/-- The members lie inside the structure and do not overlap; they are taken in the order of
the CTR format. -/
def MetaLayout.Valid (M : MetaLayout) : Prop :=
  M.dependencies + M.sizeof_dependencies ≤ M.core_version ∧
  0 < M.sizeof_core_version ∧
  M.core_version + M.sizeof_core_version ≤ M.smdh ∧
  M.smdh + M.sizeof_smdh ≤ M.sizeof_CiaMeta

instance (M : MetaLayout) : Decidable M.Valid := by
  unfold MetaLayout.Valid
  infer_instance

/-- The layout of the CTR format: `dependencies[0x180]`, 0x180 reserved bytes, the 32-bit
`core_version`, 0xFC reserved bytes, `smdh[0x36C0]`. -/
def ctrMeta : MetaLayout where
  dependencies := 0x000
  sizeof_dependencies := 0x180
  core_version := 0x300
  sizeof_core_version := 4
  smdh := 0x400
  sizeof_smdh := 0x36C0
  sizeof_CiaMeta := 0x3AC0

/-- The assignment of the integer `v` to a little-endian integer member of `width` bytes at
offset `dst`. -/
def storeLE (m : Mem) (dst width v : Nat) : Mem :=
  fun a => if dst ≤ a ∧ a < dst + width then v / 256 ^ (a - dst) % 256 else m a

/-- `u32 BuildCiaMeta(CiaMeta* meta, u8* exthdr, u8* smdh)`; a null pointer is `none`. The
input buffers do not overlap the output. -/
def BuildCiaMeta (M : MetaLayout) (cmeta : Mem) (exthdr smdh : Option Mem) : Nat × Mem :=
  let cmeta := memset cmeta 0 0x00 M.sizeof_CiaMeta
  let cmeta := storeLE cmeta M.core_version M.sizeof_core_version 2
  let cmeta :=
    match exthdr with
    | some e => memcpy cmeta M.dependencies (fun j => e (0x40 + j)) M.sizeof_dependencies
    | none => cmeta
  let cmeta :=
    match smdh with
    | some s => memcpy cmeta M.smdh s M.sizeof_smdh
    | none => cmeta
  (0, cmeta)

/-- The meta section as described, byte by byte: the dependency table from offset 0x40 of the
exheader when there is one, `core_version = 2`, the icon blob when there is one, zero
elsewhere. -/
def metaBytes (M : MetaLayout) (exthdr smdh : Option Mem) : Mem :=
  fun a =>
    if M.dependencies ≤ a ∧ a < M.dependencies + M.sizeof_dependencies then
      match exthdr with
      | some e => e (0x40 + (a - M.dependencies))
      | none => 0
    else if a = M.core_version then 2
    else if M.smdh ≤ a ∧ a < M.smdh + M.sizeof_smdh then
      match smdh with
      | some s => s (a - M.smdh)
      | none => 0
    else 0

/-! ## `BuildCiaHeader` -/

/-- `u32 BuildCiaHeader(CiaHeader* header)`. The `memset` clears every member, the
`sizeof(content_index)` bytes of the bitmap among them; the constants stored are values of
32-bit types. -/
def BuildCiaHeader (K : CiaConsts) (header : CiaHeader) : Nat × CiaHeader :=
  let header : CiaHeader :=
    { size_header := 0, type := 0, version := 0, size_cert := 0, size_ticket := 0,
      size_tmd := 0, size_meta := 0, size_content := 0,
      content_index := fun p =>
        if p < K.sizeof_content_index then 0 else header.content_index p }
  let header := { header with size_header := K.sizeof_CiaHeader }
  let header := { header with size_cert := K.CIA_CERT_SIZE }
  let header := { header with size_ticket := K.sizeof_Ticket }
  let header := { header with size_tmd := 0 }
  let header := { header with size_meta := 0 }
  let header := { header with size_content := 0 }
  (0, header)

/-- The macros of `cia.h` agree with the sizes they stand for: `CIA_HEADER_SIZE` and
`CIA_TICKET_SIZE` are the sizes of `CiaHeader` and `Ticket`, a TMD with one chunk is not below
`CIA_TMD_SIZE_MIN`, a TMD with `CIA_MAX_CONTENTS` chunks is not above `CIA_TMD_SIZE_MAX`, and
its size is below `2 ^ 32`. -/
def CiaConsts.MacrosAgree (K : CiaConsts) : Prop :=
  K.CIA_HEADER_SIZE = K.sizeof_CiaHeader ∧
  K.CIA_TICKET_SIZE = K.sizeof_Ticket ∧
  K.CIA_TMD_SIZE_MIN ≤ K.sizeof_TitleMetaData + K.sizeof_TmdContentChunk ∧
  K.sizeof_TitleMetaData + K.CIA_MAX_CONTENTS * K.sizeof_TmdContentChunk ≤ K.CIA_TMD_SIZE_MAX ∧
  K.sizeof_TitleMetaData + K.CIA_MAX_CONTENTS * K.sizeof_TmdContentChunk < 2 ^ 32

instance (K : CiaConsts) : Decidable K.MacrosAgree := by
  unfold CiaConsts.MacrosAgree
  infer_instance

/-- A sample exheader buffer. -/
def sampleExthdr : Mem :=
  fun j => (j * 3 + 1) % 256

/-- A sample buffer that held other bytes before. -/
def dirtyMem : Mem :=
  fun _ => 0xAA

/-! ## Theorems -/

/-- An accepted header satisfies the six structural invariants. -/
theorem HeaderInvariants_of_accepted (K : CiaConsts) (h : CiaHeader)
    (hv : ValidateCiaHeader K h = 0) : HeaderInvariants K h := by
  unfold ValidateCiaHeader at hv
  unfold HeaderInvariants
  split at hv
  · exact absurd hv (by decide)
  · omega

/-- C1: `ValidateCiaHeader` returns 0 exactly when the six structural invariants hold together,
and returns 1 in every other case, so a header violating any one of them is rejected. -/
theorem ValidateCiaHeader_zero_iff (K : CiaConsts) (h : CiaHeader) :
    (ValidateCiaHeader K h = 0 ↔ HeaderInvariants K h) ∧
    (ValidateCiaHeader K h = 1 ↔ ¬ HeaderInvariants K h) := by
  unfold ValidateCiaHeader HeaderInvariants
  constructor
  · split <;> rename_i hc
    · simp only [one_ne_zero, false_iff]
      intro hi
      omega
    · simp only [true_iff]
      omega
  · split <;> rename_i hc
    · simp only [true_iff]
      intro hi
      omega
    · simp only [zero_ne_one, false_iff, not_not]
      omega

/-! ### Alignment -/

theorem align_eq_alignSpec (w n : Nat) (h : n + 63 < 2 ^ w) : align w n 64 = alignSpec n := by
  unfold align alignSpec
  rw [show n + (64 - 1) = n + 63 from rfl, Nat.mod_eq_of_lt h]

theorem alignSpec_bounds (n : Nat) :
    n ≤ alignSpec n ∧ alignSpec n < n + 64 ∧ alignSpec n % 64 = 0 := by
  unfold alignSpec
  omega

theorem two_pow_offset_bits (K : CiaConsts) (hK : K.LayoutFits) :
    2 ^ 32 ≤ 2 ^ K.offset_bits ∧ 64 ∣ 2 ^ K.offset_bits ∧ 2 ^ K.offset_bits ∣ 2 ^ 64 := by
  obtain ⟨h1, h2, -⟩ := hK
  refine ⟨Nat.pow_le_pow_right (by norm_num) h1, ?_, Nat.pow_dvd_pow 2 h2⟩
  exact (show (64 : Nat) = 2 ^ 6 from rfl) ▸ Nat.pow_dvd_pow 2 (by omega)

/-- The first four offsets of an accepted header are the running sums of the aligned fixed
sizes, without wrap-around. -/
theorem GetCiaInfo_fixed_offsets (K : CiaConsts) (info : CiaInfo) (h : CiaHeader)
    (hK : K.LayoutFits) (hv : ValidateCiaHeader K h = 0) :
    (GetCiaInfo K info h).2.offset_cert = alignSpec h.size_header ∧
    (GetCiaInfo K info h).2.offset_ticket = alignSpec h.size_header + alignSpec h.size_cert ∧
    (GetCiaInfo K info h).2.offset_tmd =
      alignSpec h.size_header + alignSpec h.size_cert + alignSpec h.size_ticket ∧
    (GetCiaInfo K info h).2.offset_content =
      alignSpec h.size_header + alignSpec h.size_cert + alignSpec h.size_ticket +
        alignSpec h.size_tmd ∧
    alignSpec h.size_header + alignSpec h.size_cert + alignSpec h.size_ticket +
        alignSpec h.size_tmd < 2 ^ 32 := by
  obtain ⟨hP, -, -⟩ := two_pow_offset_bits K hK
  obtain ⟨-, -, p1, p2, p3, p4, -, hsum⟩ := hK
  obtain ⟨e1, e2, e3, ⟨e4, e5⟩, -, -⟩ := HeaderInvariants_of_accepted K h hv
  rw [← e1, ← e2, ← e3] at hsum
  have b1 := alignSpec_bounds h.size_header
  have b2 := alignSpec_bounds h.size_cert
  have b3 := alignSpec_bounds h.size_ticket
  have b4 := alignSpec_bounds h.size_tmd
  have b5 := alignSpec_bounds K.CIA_TMD_SIZE_MAX
  have m4 : alignSpec h.size_tmd ≤ alignSpec K.CIA_TMD_SIZE_MAX := by
    unfold alignSpec
    omega
  have a1 : align 32 h.size_header 64 = alignSpec h.size_header :=
    align_eq_alignSpec 32 _ (by unfold alignSpec at *; omega)
  have a2 : align 32 h.size_cert 64 = alignSpec h.size_cert :=
    align_eq_alignSpec 32 _ (by unfold alignSpec at *; omega)
  have a3 : align 32 h.size_ticket 64 = alignSpec h.size_ticket :=
    align_eq_alignSpec 32 _ (by unfold alignSpec at *; omega)
  have a4 : align 32 h.size_tmd 64 = alignSpec h.size_tmd :=
    align_eq_alignSpec 32 _ (by unfold alignSpec at *; omega)
  simp only [GetCiaInfo, a1, a2, a3, a4]
  have r1 : alignSpec h.size_header % 2 ^ K.offset_bits = alignSpec h.size_header :=
    Nat.mod_eq_of_lt (by omega)
  rw [r1]
  have r2 : (alignSpec h.size_header + alignSpec h.size_cert) % 2 ^ K.offset_bits =
      alignSpec h.size_header + alignSpec h.size_cert := Nat.mod_eq_of_lt (by omega)
  rw [r2]
  have r3 : (alignSpec h.size_header + alignSpec h.size_cert + alignSpec h.size_ticket) %
      2 ^ K.offset_bits =
      alignSpec h.size_header + alignSpec h.size_cert + alignSpec h.size_ticket :=
    Nat.mod_eq_of_lt (by omega)
  rw [r3]
  have r4 : (alignSpec h.size_header + alignSpec h.size_cert + alignSpec h.size_ticket +
      alignSpec h.size_tmd) % 2 ^ K.offset_bits =
      alignSpec h.size_header + alignSpec h.size_cert + alignSpec h.size_ticket +
        alignSpec h.size_tmd := Nat.mod_eq_of_lt (by omega)
  rw [r4]
  exact ⟨rfl, rfl, rfl, rfl, by omega⟩

/-- The value stored in `offset_meta` for an accepted header with a meta section: the sum of
`offset_content` and the aligned content size, reduced to the width of the offset fields. -/
theorem GetCiaInfo_offset_meta_mod (K : CiaConsts) (info : CiaInfo) (h : CiaHeader)
    (hK : K.LayoutFits) (hm : h.size_meta ≠ 0) (hc : h.size_content < 2 ^ 64) :
    (GetCiaInfo K info h).2.offset_meta =
      ((GetCiaInfo K info h).2.offset_content + alignSpec h.size_content) %
        2 ^ K.offset_bits := by
  obtain ⟨-, -, ⟨q, hq⟩⟩ := two_pow_offset_bits K hK
  simp only [GetCiaInfo, hm, ne_eq, not_false_eq_true, if_true]
  by_cases hfit : h.size_content + 63 < 2 ^ 64
  · rw [align_eq_alignSpec 64 _ hfit]
  · have e1 : align 64 h.size_content 64 = 0 := by
      unfold align
      omega
    have e2 : alignSpec h.size_content = 2 ^ K.offset_bits * q := by
      rw [← hq]
      unfold alignSpec
      omega
    rw [e1, e2, Nat.add_zero, Nat.add_mul_mod_self_left]

/-! ### Layout monotonicity (C2) -/

/-- C2, as amended: for a header accepted by `ValidateCiaHeader`, the offsets computed by
`GetCiaInfo` satisfy `offset_cert < offset_ticket < offset_tmd < offset_content`, each of the
five offsets is a multiple of 64, and `offset_content < offset_meta` holds when `size_meta` is
nonzero and `offset_content + align(size_content)` is below `2 ^ offset_bits`, the range of the
offset field. -/
theorem GetCiaInfo_offsets_increasing (K : CiaConsts) (info : CiaInfo) (h : CiaHeader)
    (hK : K.LayoutFits) (hv : ValidateCiaHeader K h = 0) :
    (GetCiaInfo K info h).2.offset_cert < (GetCiaInfo K info h).2.offset_ticket ∧
    (GetCiaInfo K info h).2.offset_ticket < (GetCiaInfo K info h).2.offset_tmd ∧
    (GetCiaInfo K info h).2.offset_tmd < (GetCiaInfo K info h).2.offset_content ∧
    (h.size_meta ≠ 0 →
      (GetCiaInfo K info h).2.offset_content + alignSpec h.size_content < 2 ^ K.offset_bits →
      (GetCiaInfo K info h).2.offset_content < (GetCiaInfo K info h).2.offset_meta) ∧
    64 ∣ (GetCiaInfo K info h).2.offset_cert ∧
    64 ∣ (GetCiaInfo K info h).2.offset_ticket ∧
    64 ∣ (GetCiaInfo K info h).2.offset_tmd ∧
    64 ∣ (GetCiaInfo K info h).2.offset_content ∧
    64 ∣ (GetCiaInfo K info h).2.offset_meta := by
  obtain ⟨o1, o2, o3, o4, -⟩ := GetCiaInfo_fixed_offsets K info h hK hv
  obtain ⟨hP, h64, hP64⟩ := two_pow_offset_bits K hK
  obtain ⟨e1, e2, e3, ⟨e4, e5⟩, e6, -⟩ := HeaderInvariants_of_accepted K h hv
  have hK2 : K.LayoutFits := hK
  obtain ⟨-, -, p1, p2, p3, p4, -, -⟩ := hK
  have b1 := alignSpec_bounds h.size_header
  have b2 := alignSpec_bounds h.size_cert
  have b3 := alignSpec_bounds h.size_ticket
  have b4 := alignSpec_bounds h.size_tmd
  have b5 := alignSpec_bounds h.size_content
  have d4 : 64 ∣ (GetCiaInfo K info h).2.offset_content := by
    rw [o4]
    omega
  refine ⟨by omega, by omega, by omega, ?_, by omega, by omega, by omega, d4, ?_⟩
  · intro hm hfit
    have hc : h.size_content < 2 ^ 64 := by
      have : 2 ^ K.offset_bits ≤ 2 ^ 64 := Nat.le_of_dvd (by norm_num) hP64
      omega
    rw [GetCiaInfo_offset_meta_mod K info h hK2 hm hc, Nat.mod_eq_of_lt hfit]
    omega
  · by_cases hm : h.size_meta = 0
    · simp [GetCiaInfo, hm]
    · have e : (GetCiaInfo K info h).2.offset_meta =
          ((GetCiaInfo K info h).2.offset_content + align 64 h.size_content 64) %
            2 ^ K.offset_bits := by
        simp [GetCiaInfo, hm]
      rw [e]
      refine (Nat.dvd_mod_iff h64).2 (Nat.dvd_add d4 ?_)
      unfold align
      exact Nat.dvd_mul_left 64 _

/-- A concrete instance: the CTR constants and a header with a
0x1000-byte content section. -/
theorem GetCiaInfo_offsets_increasing_witness :
    (GetCiaInfo ctrConsts zeroInfo (ctrHeader 0x1000)).2.offset_cert <
      (GetCiaInfo ctrConsts zeroInfo (ctrHeader 0x1000)).2.offset_ticket ∧
    (GetCiaInfo ctrConsts zeroInfo (ctrHeader 0x1000)).2.offset_content <
      (GetCiaInfo ctrConsts zeroInfo (ctrHeader 0x1000)).2.offset_meta :=
  have t := GetCiaInfo_offsets_increasing ctrConsts zeroInfo (ctrHeader 0x1000)
    (by decide) (by decide)
  ⟨t.1, t.2.2.2.1 (by decide) (by decide)⟩

/-- C2 fails as stated: with 32-bit offset fields, the accepted header with a meta section and
`size_content = 0xFFFFF000` gets `offset_content = 0x3900` and `offset_meta = 0x2900`; with
64-bit offset fields the accepted header with `size_content = 2 ^ 64 - 1` gets
`offset_meta = offset_content = 0x3900`. -/
theorem GetCiaInfo_offset_meta_not_above_content :
    (ValidateCiaHeader ctrConsts (ctrHeader 0xFFFFF000) = 0 ∧
      (ctrHeader 0xFFFFF000).size_meta ≠ 0 ∧
      (GetCiaInfo ctrConsts zeroInfo (ctrHeader 0xFFFFF000)).2.offset_content = 0x3900 ∧
      (GetCiaInfo ctrConsts zeroInfo (ctrHeader 0xFFFFF000)).2.offset_meta = 0x2900 ∧
      ¬ (GetCiaInfo ctrConsts zeroInfo (ctrHeader 0xFFFFF000)).2.offset_content <
        (GetCiaInfo ctrConsts zeroInfo (ctrHeader 0xFFFFF000)).2.offset_meta) ∧
    (ValidateCiaHeader ctrConsts64 (ctrHeader (2 ^ 64 - 1)) = 0 ∧
      (ctrHeader (2 ^ 64 - 1)).size_meta ≠ 0 ∧
      ¬ (GetCiaInfo ctrConsts64 zeroInfo (ctrHeader (2 ^ 64 - 1))).2.offset_content <
        (GetCiaInfo ctrConsts64 zeroInfo (ctrHeader (2 ^ 64 - 1))).2.offset_meta) := by
  decide

/-! ### The derived fields (C3) -/

/-- C3, as amended: for a header accepted by `ValidateCiaHeader`, `GetCiaInfo` returns 0, copies
the size fields, and computes the offsets of certificate chain, ticket, TMD and content, the
chunk-list offset and size and `max_contents` by the stated formulas. `offset_meta` is 0 when
`size_meta` is 0 and otherwise `offset_content + align(size_content)` reduced modulo
`2 ^ offset_bits`, hence that sum itself when it is below `2 ^ offset_bits`. `size_cia` is
`offset_meta + size_meta` reduced modulo `2 ^ offset_bits` when `size_meta` is nonzero and
`offset_content + size_content` reduced modulo `2 ^ 64` otherwise, hence the sums themselves
when they are in range. -/
theorem GetCiaInfo_fields (K : CiaConsts) (info : CiaInfo) (h : CiaHeader)
    (hK : K.LayoutFits) (hv : ValidateCiaHeader K h = 0) :
    (GetCiaInfo K info h).1 = 0 ∧
    ((GetCiaInfo K info h).2.size_header = h.size_header ∧
      (GetCiaInfo K info h).2.size_cert = h.size_cert ∧
      (GetCiaInfo K info h).2.size_ticket = h.size_ticket ∧
      (GetCiaInfo K info h).2.size_tmd = h.size_tmd ∧
      (GetCiaInfo K info h).2.size_meta = h.size_meta ∧
      (GetCiaInfo K info h).2.size_content = h.size_content) ∧
    (GetCiaInfo K info h).2.offset_cert = alignSpec h.size_header ∧
    (GetCiaInfo K info h).2.offset_ticket =
      (GetCiaInfo K info h).2.offset_cert + alignSpec h.size_cert ∧
    (GetCiaInfo K info h).2.offset_tmd =
      (GetCiaInfo K info h).2.offset_ticket + alignSpec h.size_ticket ∧
    (GetCiaInfo K info h).2.offset_content =
      (GetCiaInfo K info h).2.offset_tmd + alignSpec h.size_tmd ∧
    (h.size_meta = 0 → (GetCiaInfo K info h).2.offset_meta = 0) ∧
    (h.size_meta ≠ 0 → h.size_content < 2 ^ 64 →
      (GetCiaInfo K info h).2.offset_meta =
        ((GetCiaInfo K info h).2.offset_content + alignSpec h.size_content) %
          2 ^ K.offset_bits) ∧
    (h.size_meta ≠ 0 →
      (GetCiaInfo K info h).2.offset_content + alignSpec h.size_content < 2 ^ K.offset_bits →
      (GetCiaInfo K info h).2.offset_meta =
        (GetCiaInfo K info h).2.offset_content + alignSpec h.size_content) ∧
    (GetCiaInfo K info h).2.offset_content_list =
      (GetCiaInfo K info h).2.offset_tmd + K.sizeof_TitleMetaData ∧
    (GetCiaInfo K info h).2.size_content_list = h.size_tmd - K.sizeof_TitleMetaData ∧
    (GetCiaInfo K info h).2.max_contents =
      (GetCiaInfo K info h).2.size_content_list / K.sizeof_TmdContentChunk ∧
    (h.size_meta ≠ 0 →
      (GetCiaInfo K info h).2.size_cia =
        ((GetCiaInfo K info h).2.offset_meta + h.size_meta) % 2 ^ K.offset_bits) ∧
    (h.size_meta ≠ 0 →
      (GetCiaInfo K info h).2.offset_meta + h.size_meta < 2 ^ K.offset_bits →
      (GetCiaInfo K info h).2.size_cia = (GetCiaInfo K info h).2.offset_meta + h.size_meta) ∧
    (h.size_meta = 0 →
      (GetCiaInfo K info h).2.size_cia =
        ((GetCiaInfo K info h).2.offset_content + h.size_content) % 2 ^ 64) ∧
    (h.size_meta = 0 →
      (GetCiaInfo K info h).2.offset_content + h.size_content < 2 ^ 64 →
      (GetCiaInfo K info h).2.size_cia =
        (GetCiaInfo K info h).2.offset_content + h.size_content) := by
  obtain ⟨o1, o2, o3, o4, hsum⟩ := GetCiaInfo_fixed_offsets K info h hK hv
  obtain ⟨hP, h64, hP64⟩ := two_pow_offset_bits K hK
  obtain ⟨e1, e2, e3, ⟨e4, e5⟩, e6, -⟩ := HeaderInvariants_of_accepted K h hv
  have hP64le : 2 ^ K.offset_bits ≤ 2 ^ 64 := Nat.le_of_dvd (by norm_num) hP64
  have hsz : K.sizeof_TitleMetaData ≤ h.size_tmd := by
    obtain ⟨-, -, -, -, -, -, p5, -⟩ := hK
    omega
  have b4 := alignSpec_bounds h.size_tmd
  have hs32 : sub32 h.size_tmd K.sizeof_TitleMetaData = h.size_tmd - K.sizeof_TitleMetaData := by
    unfold sub32
    omega
  have hcl : (GetCiaInfo K info h).2.size_content_list =
      h.size_tmd - K.sizeof_TitleMetaData := by
    simp only [GetCiaInfo, hs32]
  have hmeta : ∀ hm : h.size_meta ≠ 0, ∀ hc : h.size_content < 2 ^ 64,
      (GetCiaInfo K info h).2.offset_meta =
        ((GetCiaInfo K info h).2.offset_content + alignSpec h.size_content) %
          2 ^ K.offset_bits := fun hm hc => GetCiaInfo_offset_meta_mod K info h hK hm hc
  have hciaM : h.size_meta ≠ 0 → (GetCiaInfo K info h).2.size_cia =
      ((GetCiaInfo K info h).2.offset_meta + h.size_meta) % 2 ^ K.offset_bits := by
    intro hm
    simp [GetCiaInfo, hm]
  have hcia0 : h.size_meta = 0 → (GetCiaInfo K info h).2.size_cia =
      ((GetCiaInfo K info h).2.offset_content + h.size_content) % 2 ^ 64 := by
    intro hm
    simp [GetCiaInfo, hm]
  refine ⟨rfl, ⟨rfl, rfl, rfl, rfl, rfl, rfl⟩, o1, by omega, by omega, by omega, ?_, hmeta, ?_,
    ?_, hcl, ?_, hciaM, ?_, hcia0, ?_⟩
  · intro hm
    simp [GetCiaInfo, hm]
  · intro hm hfit
    have b5 := alignSpec_bounds h.size_content
    rw [hmeta hm (by omega), Nat.mod_eq_of_lt hfit]
  · have e : (GetCiaInfo K info h).2.offset_content_list =
        ((GetCiaInfo K info h).2.offset_tmd + K.sizeof_TitleMetaData) % 2 ^ K.offset_bits := by
      simp only [GetCiaInfo]
    rw [e]
    exact Nat.mod_eq_of_lt (by omega)
  · rw [hcl]
    simp only [GetCiaInfo, hs32]
  · intro hm hfit
    rw [hciaM hm, Nat.mod_eq_of_lt hfit]
  · intro hm hfit
    rw [hcia0 hm, Nat.mod_eq_of_lt hfit]

/-- A concrete instance: the CTR constants and a header with a 0x1000-byte
content section, for which `offset_meta` is 0x4900. -/
theorem GetCiaInfo_fields_witness :
    (GetCiaInfo ctrConsts zeroInfo (ctrHeader 0x1000)).2.offset_cert =
      alignSpec (ctrHeader 0x1000).size_header ∧
    (GetCiaInfo ctrConsts zeroInfo (ctrHeader 0x1000)).2.offset_meta =
      (GetCiaInfo ctrConsts zeroInfo (ctrHeader 0x1000)).2.offset_content +
        alignSpec (ctrHeader 0x1000).size_content :=
  have t := GetCiaInfo_fields ctrConsts zeroInfo (ctrHeader 0x1000) (by decide) (by decide)
  ⟨t.2.2.1, t.2.2.2.2.2.2.2.2.1 (by decide) (by decide)⟩

/-- C3 fails as stated: for the accepted header with a meta section and
`size_content = 0x100000000`, `offset_meta` is 0x3900, the same as `offset_content`, and not
`offset_content + align(size_content)`; `size_cia` is 0x73C0 and not the end of the meta
section. With 64-bit offset fields the same happens at `size_content = 2 ^ 64 - 1`. -/
theorem GetCiaInfo_offset_meta_truncated :
    (ValidateCiaHeader ctrConsts (ctrHeader 0x100000000) = 0 ∧
      (ctrHeader 0x100000000).size_meta ≠ 0 ∧
      (GetCiaInfo ctrConsts zeroInfo (ctrHeader 0x100000000)).2.offset_meta = 0x3900 ∧
      (GetCiaInfo ctrConsts zeroInfo (ctrHeader 0x100000000)).2.offset_content +
        alignSpec (ctrHeader 0x100000000).size_content = 0x100003900 ∧
      (GetCiaInfo ctrConsts zeroInfo (ctrHeader 0x100000000)).2.size_cia = 0x73C0) ∧
    (ValidateCiaHeader ctrConsts64 (ctrHeader (2 ^ 64 - 1)) = 0 ∧
      (GetCiaInfo ctrConsts64 zeroInfo (ctrHeader (2 ^ 64 - 1))).2.offset_meta ≠
        (GetCiaInfo ctrConsts64 zeroInfo (ctrHeader (2 ^ 64 - 1))).2.offset_content +
          alignSpec (ctrHeader (2 ^ 64 - 1)).size_content) := by
  decide

/-! ### Byte buffers -/

theorem getbe16_congr (m m2 : Mem) (p : Nat) (h0 : m p = m2 p) (h1 : m (p + 1) = m2 (p + 1)) :
    getbe16 m p = getbe16 m2 p := by
  unfold getbe16
  rw [h0, h1]

theorem getbe16_le (m : Mem) (p : Nat) : getbe16 m p ≤ 65535 := by
  unfold getbe16
  omega

theorem readBytes_congr (m m2 : Mem) (src n : Nat)
    (h : ∀ j, j < n → m (src + j) = m2 (src + j)) : readBytes m src n = readBytes m2 src n := by
  unfold readBytes
  apply List.map_congr_left
  intro j hj
  exact h j (List.mem_range.1 hj)

theorem storeDigest_self (m : Mem) (dst : Nat) (d : Nat → Nat)
    (h : ∀ t, t < 0x20 → m (dst + t) = d t) : storeDigest m dst d = m := by
  funext a
  unfold storeDigest
  split
  · rename_i ha
    have := h (a - dst) (by omega)
    rw [← this]
    congr 1
    omega
  · rfl

theorem mul_succ_le (i j ci : Nat) (h : i < j) : i * ci + ci ≤ j * ci := by
  calc i * ci + ci = (i + 1) * ci := by ring
    _ ≤ j * ci := Nat.mul_le_mul_right _ h

/-! ### The walk of `FixTmdHashes` -/

theorem cmdCount_le (L : TmdLayout) (tmd : Mem) (i : Nat) : cmdCount L tmd i ≤ 65535 :=
  getbe16_le _ _

theorem cursor_le (L : TmdLayout) (tmd : Mem) (i : Nat) : cursor L tmd i ≤ i * 65535 := by
  induction i with
  | zero => simp [cursor]
  | succ n ih =>
    have := cmdCount_le L tmd n
    simp only [cursor]
    omega

theorem cursor_mono (L : TmdLayout) (tmd : Mem) (i j : Nat) (h : i ≤ j) :
    cursor L tmd i ≤ cursor L tmd j := by
  induction j with
  | zero =>
    have : i = 0 := by omega
    rw [this]
  | succ n ih =>
    by_cases hn : i = n + 1
    · rw [hn]
    · have := ih (by omega)
      simp only [cursor]
      omega

/-- One iteration of the loop of `FixTmdHashes`. -/
theorem FixTmdHashes_loop_step (K : CiaConsts) (L : TmdLayout) (sha : Sha256)
    (c fuel i kc : Nat) (m : Mem) :
    FixTmdHashes_loop K L sha c (fuel + 1) i kc m =
      if i < 64 ∧ kc < c then
        FixTmdHashes_loop K L sha c fuel (i + 1)
          ((kc + getbe16 m (L.contentinfo + i * L.sizeof_TmdContentInfo + L.info_cmd_count)) %
            2 ^ 32)
          (sha_quick sha m (L.contentinfo + i * L.sizeof_TmdContentInfo + L.info_hash)
            (K.sizeof_TitleMetaData + kc * K.sizeof_TmdContentChunk)
            (getbe16 m (L.contentinfo + i * L.sizeof_TmdContentInfo + L.info_cmd_count) *
              K.sizeof_TmdContentChunk % 2 ^ 32))
      else m :=
  rfl

/-- The 64 iterations granted to the loop of `FixTmdHashes` are enough: once the bound covers
the entries from `i` to 63, a larger bound gives the same buffer. -/
theorem FixTmdHashes_loop_fuel (K : CiaConsts) (L : TmdLayout) (sha : Sha256) (c fuel i kc : Nat)
    (m : Mem) (h : 64 ≤ i + fuel) :
    FixTmdHashes_loop K L sha c (fuel + 1) i kc m = FixTmdHashes_loop K L sha c fuel i kc m := by
  induction fuel generalizing i kc m with
  | zero =>
    rw [FixTmdHashes_loop_step, if_neg (by omega)]
    rfl
  | succ fuel ih =>
    by_cases hcnd : i < 64 ∧ kc < c
    · rw [FixTmdHashes_loop_step K L sha c (fuel + 1) i kc m, if_pos hcnd,
        FixTmdHashes_loop_step K L sha c fuel i kc m, if_pos hcnd]
      exact ih _ _ _ (by omega)
    · rw [FixTmdHashes_loop_step K L sha c (fuel + 1) i kc m, if_neg hcnd,
        FixTmdHashes_loop_step K L sha c fuel i kc m, if_neg hcnd]

/-- The walk leaves every byte outside the `hash` fields of the entries below `n` alone. -/
theorem walked_of_not_hash (K : CiaConsts) (L : TmdLayout) (sha : Sha256) (tmd : Mem)
    (c n a : Nat) (h : ∀ i, i < n → ¬ (infoHash L i ≤ a ∧ a < infoHash L i + 0x20)) :
    walked K L sha tmd c n a = tmd a := by
  induction n with
  | zero => rfl
  | succ n ih =>
    have hn := h n (by omega)
    have ih2 := ih (fun i hi => h i (by omega))
    simp only [walked]
    split
    · unfold storeDigest
      rw [if_neg hn]
      exact ih2
    · exact ih2

/-- The `hash` fields of two different entries do not overlap. -/
theorem infoHash_disjoint (K : CiaConsts) (L : TmdLayout) (hV : L.Valid K) (i j t : Nat)
    (ht : t < 0x20) (hij : i ≠ j) :
    ¬ (infoHash L j ≤ infoHash L i + t ∧ infoHash L i + t < infoHash L j + 0x20) := by
  obtain ⟨-, -, -, -, -, -, -, -, -, -, v11, v12, -⟩ := hV
  unfold infoHash
  rcases Nat.lt_or_gt_of_ne hij with hlt | hgt
  · have := mul_succ_le i j L.sizeof_TmdContentInfo hlt
    omega
  · have := mul_succ_le j i L.sizeof_TmdContentInfo hgt
    omega

/-- The `hash` field of entry `i` after the walk has passed the entries below `n`. -/
theorem walked_hash (K : CiaConsts) (L : TmdLayout) (sha : Sha256) (tmd : Mem) (hV : L.Valid K)
    (c n i t : Nat) (ht : t < 0x20) :
    walked K L sha tmd c n (infoHash L i + t) =
      if i < n ∧ cursor L tmd i < c then
        sha (chunkBytes K tmd (cursor L tmd i) (cmdCount L tmd i)) t
      else tmd (infoHash L i + t) := by
  induction n with
  | zero => simp [walked]
  | succ n ih =>
    simp only [walked]
    by_cases hin : i = n
    · subst hin
      by_cases hc : cursor L tmd i < c
      · rw [if_pos hc, if_pos ⟨by omega, hc⟩]
        unfold storeDigest
        rw [if_pos (by omega)]
        congr 1
        omega
      · rw [if_neg hc, ih, if_neg (by omega), if_neg (by omega)]
    · have hd := infoHash_disjoint K L hV i n t ht hin
      have e : (i < n + 1 ∧ cursor L tmd i < c) ↔ (i < n ∧ cursor L tmd i < c) := by omega
      split
      · unfold storeDigest
        rw [if_neg hd, ih]
        simp only [e]
      · rw [ih]
        simp only [e]

/-- The bytes of `cmd_count` of an entry are not touched by the walk. -/
theorem walked_cmdCount (K : CiaConsts) (L : TmdLayout) (sha : Sha256) (tmd : Mem)
    (hV : L.Valid K) (c n i : Nat) :
    cmdCount L (walked K L sha tmd c n) i = cmdCount L tmd i := by
  obtain ⟨-, -, -, -, -, -, -, -, -, -, v11, v12, -⟩ := hV
  unfold cmdCount
  apply getbe16_congr <;>
  · apply walked_of_not_hash
    intro j _
    unfold infoHash
    rcases Nat.lt_trichotomy j i with hlt | heq | hgt
    · have := mul_succ_le j i L.sizeof_TmdContentInfo hlt
      omega
    · subst heq
      omega
    · have := mul_succ_le i j L.sizeof_TmdContentInfo hgt
      omega

/-- The chunk records are not touched by the walk. -/
theorem walked_chunk (K : CiaConsts) (L : TmdLayout) (sha : Sha256) (tmd : Mem)
    (hV : L.Valid K) (c n a : Nat) (hn : n ≤ 64) (ha : K.sizeof_TitleMetaData ≤ a) :
    walked K L sha tmd c n a = tmd a := by
  obtain ⟨-, -, -, -, -, -, -, -, -, v10, v11, v12, -⟩ := hV
  apply walked_of_not_hash
  intro j hj
  unfold infoHash
  have := mul_succ_le j 64 L.sizeof_TmdContentInfo (by omega)
  omega

/-- The loop of the code, started after `i` entries, ends in the buffer described by
`walked` for all 64 entries. -/
theorem FixTmdHashes_loop_eq_walked (K : CiaConsts) (L : TmdLayout) (sha : Sha256) (tmd : Mem)
    (hV : L.Valid K) (c fuel i : Nat) (hfuel : i + fuel = 64) :
    FixTmdHashes_loop K L sha c fuel i (cursor L tmd i) (walked K L sha tmd c i) =
      walked K L sha tmd c 64 := by
  induction fuel generalizing i with
  | zero =>
    have : i = 64 := by omega
    subst this
    rfl
  | succ fuel ih =>
    have hi : i < 64 := by omega
    simp only [FixTmdHashes_loop]
    by_cases hc : cursor L tmd i < c
    · rw [if_pos ⟨hi, hc⟩]
      have hk : getbe16 (walked K L sha tmd c i)
          (L.contentinfo + i * L.sizeof_TmdContentInfo + L.info_cmd_count) =
          cmdCount L tmd i := walked_cmdCount K L sha tmd hV c i i
      have hkle := cmdCount_le L tmd i
      have hcle := cursor_le L tmd i
      have hS : 65535 * K.sizeof_TmdContentChunk < 2 ^ 32 := by
        obtain ⟨-, -, -, -, -, -, -, -, -, -, -, -, -, -, v15⟩ := hV
        omega
      have hlen : cmdCount L tmd i * K.sizeof_TmdContentChunk % 2 ^ 32 =
          cmdCount L tmd i * K.sizeof_TmdContentChunk := by
        apply Nat.mod_eq_of_lt
        have := Nat.mul_le_mul_right K.sizeof_TmdContentChunk hkle
        omega
      have hkc : (cursor L tmd i + cmdCount L tmd i) % 2 ^ 32 = cursor L tmd (i + 1) := by
        simp only [cursor]
        apply Nat.mod_eq_of_lt
        omega
      have hw : sha_quick sha (walked K L sha tmd c i)
          (L.contentinfo + i * L.sizeof_TmdContentInfo + L.info_hash)
          (K.sizeof_TitleMetaData + cursor L tmd i * K.sizeof_TmdContentChunk)
          (cmdCount L tmd i * K.sizeof_TmdContentChunk) = walked K L sha tmd c (i + 1) := by
        simp only [walked, if_pos hc, sha_quick, chunkBytes, infoHash]
        rw [readBytes_congr (walked K L sha tmd c i) tmd _ _
          (fun j _ => walked_chunk K L sha tmd hV c i _ (by omega) (by omega))]
      rw [hk, hlen, hkc, hw]
      exact ih (i + 1) (by omega)
    · rw [if_neg (by omega)]
      have hrest : ∀ d, walked K L sha tmd c (i + d) = walked K L sha tmd c i := by
        intro d
        induction d with
        | zero => rfl
        | succ d ihd =>
          have := cursor_mono L tmd i (i + d) (by omega)
          rw [show i + (d + 1) = (i + d) + 1 from rfl]
          simp only [walked]
          rw [if_neg (by omega)]
          exact ihd
      have := hrest (64 - i)
      rw [show i + (64 - i) = 64 by omega] at this
      exact this.symm

/-- `FixTmdHashes` in closed form: the walk over the 64 entries, then the top-level digest of
the entry array. -/
theorem FixTmdHashes_eq (K : CiaConsts) (L : TmdLayout) (sha : Sha256) (tmd : Mem)
    (hV : L.Valid K) :
    FixTmdHashes K L sha tmd =
      (0, storeDigest (walked K L sha tmd (getbe16 tmd L.content_count) 64) L.contentinfo_hash
        (sha (readBytes (walked K L sha tmd (getbe16 tmd L.content_count) 64) L.contentinfo
          (64 * L.sizeof_TmdContentInfo)))) := by
  have hloop : FixTmdHashes_loop K L sha (getbe16 tmd L.content_count) 64 0 0 tmd =
      walked K L sha tmd (getbe16 tmd L.content_count) 64 :=
    FixTmdHashes_loop_eq_walked K L sha tmd hV (getbe16 tmd L.content_count) 64 0 rfl
  have hlen : 64 * L.sizeof_TmdContentInfo % 2 ^ 32 = 64 * L.sizeof_TmdContentInfo := by
    obtain ⟨-, -, -, -, -, -, -, -, -, v10, -, -, -, -, v15⟩ := hV
    apply Nat.mod_eq_of_lt
    omega
  simp only [FixTmdHashes, hloop, hlen, sha_quick]

theorem not_hash_content_count (K : CiaConsts) (L : TmdLayout) (hV : L.Valid K) (u : Nat)
    (hu : u < 2) : ¬ IsHashByte L (L.content_count + u) := by
  obtain ⟨-, -, -, -, -, -, -, v8, v9, -⟩ := hV
  rintro (h | ⟨i, -, h⟩)
  · omega
  · unfold infoHash at h
    omega

theorem not_hash_cmdCount (K : CiaConsts) (L : TmdLayout) (hV : L.Valid K) (i u : Nat)
    (hu : u < 2) :
    ¬ IsHashByte L (L.contentinfo + i * L.sizeof_TmdContentInfo + L.info_cmd_count + u) := by
  obtain ⟨-, -, -, -, -, -, -, -, v9, -, v11, v12, -⟩ := hV
  rintro (h | ⟨j, -, h⟩)
  · omega
  · unfold infoHash at h
    rcases Nat.lt_trichotomy j i with hlt | heq | hgt
    · have := mul_succ_le j i L.sizeof_TmdContentInfo hlt
      omega
    · subst heq
      omega
    · have := mul_succ_le i j L.sizeof_TmdContentInfo hgt
      omega

theorem not_hash_chunk (K : CiaConsts) (L : TmdLayout) (hV : L.Valid K) (a : Nat)
    (ha : K.sizeof_TitleMetaData ≤ a) : ¬ IsHashByte L a := by
  obtain ⟨-, -, -, -, -, -, -, -, v9, v10, v11, v12, -⟩ := hV
  rintro (h | ⟨j, hj, h⟩)
  · omega
  · unfold infoHash at h
    have := mul_succ_le j 64 L.sizeof_TmdContentInfo hj
    omega

/-- `FixTmdHashes` changes no byte outside `contentinfo_hash` and the entry hashes. -/
theorem FixTmdHashes_frame (K : CiaConsts) (L : TmdLayout) (sha : Sha256) (tmd : Mem)
    (hV : L.Valid K) (a : Nat) (ha : ¬ IsHashByte L a) :
    (FixTmdHashes K L sha tmd).2 a = tmd a := by
  rw [FixTmdHashes_eq K L sha tmd hV]
  simp only [storeDigest]
  rw [if_neg (fun h => ha (Or.inl h))]
  apply walked_of_not_hash
  intro i hi h
  exact ha (Or.inr ⟨i, hi, h⟩)

/-- The `hash` field of entry `i` after `FixTmdHashes`. -/
theorem FixTmdHashes_hash_at (K : CiaConsts) (L : TmdLayout) (sha : Sha256) (tmd : Mem)
    (hV : L.Valid K) (i t : Nat) (hi : i < 64) (ht : t < 0x20) :
    (FixTmdHashes K L sha tmd).2 (infoHash L i + t) =
      if cursor L tmd i < getbe16 tmd L.content_count then
        sha (chunkBytes K tmd (cursor L tmd i) (cmdCount L tmd i)) t
      else tmd (infoHash L i + t) := by
  rw [FixTmdHashes_eq K L sha tmd hV]
  simp only [storeDigest]
  have hd : ¬ (L.contentinfo_hash ≤ infoHash L i + t ∧
      infoHash L i + t < L.contentinfo_hash + 0x20) := by
    obtain ⟨-, -, -, -, -, -, -, -, v9, -⟩ := hV
    unfold infoHash
    omega
  rw [if_neg hd, walked_hash K L sha tmd hV _ 64 i t ht]
  simp only [hi, true_and]

/-- The top-level hash after `FixTmdHashes` is the digest of the entry array of the final
buffer. -/
theorem FixTmdHashes_top_at (K : CiaConsts) (L : TmdLayout) (sha : Sha256) (tmd : Mem)
    (hV : L.Valid K) (t : Nat) (ht : t < 0x20) :
    (FixTmdHashes K L sha tmd).2 (L.contentinfo_hash + t) =
      sha (readBytes (FixTmdHashes K L sha tmd).2 L.contentinfo
        (64 * L.sizeof_TmdContentInfo)) t := by
  rw [FixTmdHashes_eq K L sha tmd hV]
  have hr : readBytes (storeDigest (walked K L sha tmd (getbe16 tmd L.content_count) 64)
      L.contentinfo_hash (sha (readBytes (walked K L sha tmd (getbe16 tmd L.content_count) 64)
        L.contentinfo (64 * L.sizeof_TmdContentInfo)))) L.contentinfo
        (64 * L.sizeof_TmdContentInfo) =
      readBytes (walked K L sha tmd (getbe16 tmd L.content_count) 64) L.contentinfo
        (64 * L.sizeof_TmdContentInfo) := by
    apply readBytes_congr
    intro j _
    obtain ⟨-, -, -, -, -, -, -, -, v9, -⟩ := hV
    simp only [storeDigest]
    rw [if_neg (by omega)]
  simp only [hr]
  simp only [storeDigest]
  rw [if_pos (by omega)]
  congr 1
  omega

/-! ### The entry hashes (C4) -/

/-- C4: `FixTmdHashes` returns 0 and, for every entry `i < 64`: when the running cursor (0 at
the start, advanced by each entry's big-endian `cmd_count`) is below the content count before
every entry up to `i`, the hash of entry `i` is the SHA-256 of the raw bytes of the
`cmd_count` chunk records starting at the cursor; when the cursor has reached the content count
at some entry up to `i`, the hash of entry `i` is not written. -/
theorem FixTmdHashes_entry_hashes (K : CiaConsts) (L : TmdLayout) (sha : Sha256) (tmd : Mem)
    (hV : L.Valid K) (i : Nat) (hi : i < 64) :
    (FixTmdHashes K L sha tmd).1 = 0 ∧
    ((∀ j, j ≤ i → cursor L tmd j < getbe16 tmd L.content_count) →
      ∀ t, t < 0x20 →
        (FixTmdHashes K L sha tmd).2 (infoHash L i + t) =
          sha (chunkBytes K tmd (cursor L tmd i) (cmdCount L tmd i)) t) ∧
    ((∃ j, j ≤ i ∧ getbe16 tmd L.content_count ≤ cursor L tmd j) →
      ∀ t, t < 0x20 →
        (FixTmdHashes K L sha tmd).2 (infoHash L i + t) = tmd (infoHash L i + t)) := by
  refine ⟨rfl, ?_, ?_⟩
  · intro hall t ht
    rw [FixTmdHashes_hash_at K L sha tmd hV i t hi ht, if_pos (hall i (Nat.le_refl i))]
  · rintro ⟨j, hj, hc⟩ t ht
    have := cursor_mono L tmd j i hj
    rw [FixTmdHashes_hash_at K L sha tmd hV i t hi ht, if_neg (by omega)]

/-- A concrete instance: in the sample TMD with one content, entry 0 gets
the digest of chunk record 0 and entry 1 is not written. -/
theorem FixTmdHashes_entry_hashes_witness :
    (∀ t, t < 0x20 →
      (FixTmdHashes ctrConsts ctrLayout toySha sampleTmd).2 (infoHash ctrLayout 0 + t) =
        toySha (chunkBytes ctrConsts sampleTmd (cursor ctrLayout sampleTmd 0)
          (cmdCount ctrLayout sampleTmd 0)) t) ∧
    (∀ t, t < 0x20 →
      (FixTmdHashes ctrConsts ctrLayout toySha sampleTmd).2 (infoHash ctrLayout 1 + t) =
        sampleTmd (infoHash ctrLayout 1 + t)) :=
  ⟨(FixTmdHashes_entry_hashes ctrConsts ctrLayout toySha sampleTmd (by decide) 0
      (by decide)).2.1 (by decide),
    (FixTmdHashes_entry_hashes ctrConsts ctrLayout toySha sampleTmd (by decide) 1
      (by decide)).2.2 ⟨1, Nat.le_refl 1, by decide⟩⟩

/-! ### The top-level hash (C5) -/

/-- C5: after `FixTmdHashes`, `contentinfo_hash` holds the SHA-256 of the bytes of the whole
64-entry `contentinfo` array of the resulting TMD, that is, of the array with the entry hashes
written. -/
theorem FixTmdHashes_top_hash (K : CiaConsts) (L : TmdLayout) (sha : Sha256) (tmd : Mem)
    (hV : L.Valid K) :
    ∀ t, t < 0x20 →
      (FixTmdHashes K L sha tmd).2 (L.contentinfo_hash + t) =
        sha (readBytes (FixTmdHashes K L sha tmd).2 L.contentinfo
          (64 * L.sizeof_TmdContentInfo)) t :=
  fun t ht => FixTmdHashes_top_at K L sha tmd hV t ht

/-- A concrete instance: the sample TMD under the CTR layout. -/
theorem FixTmdHashes_top_hash_witness :
    ctrLayout.Valid ctrConsts ∧
    ∀ t, t < 0x20 →
      (FixTmdHashes ctrConsts ctrLayout toySha sampleTmd).2 (ctrLayout.contentinfo_hash + t) =
        toySha (readBytes (FixTmdHashes ctrConsts ctrLayout toySha sampleTmd).2
          ctrLayout.contentinfo (64 * ctrLayout.sizeof_TmdContentInfo)) t :=
  ⟨by decide, FixTmdHashes_top_hash ctrConsts ctrLayout toySha sampleTmd (by decide)⟩

/-! ### Idempotence (C6) -/

/-- C6: `FixTmdHashes` is idempotent: applied to its own result it returns the same return
value and the same buffer, so every entry hash and the top-level hash are the same. -/
theorem FixTmdHashes_idempotent (K : CiaConsts) (L : TmdLayout) (sha : Sha256) (tmd : Mem)
    (hV : L.Valid K) :
    FixTmdHashes K L sha (FixTmdHashes K L sha tmd).2 = FixTmdHashes K L sha tmd := by
  have hfr := FixTmdHashes_frame K L sha tmd hV
  have hcc : getbe16 (FixTmdHashes K L sha tmd).2 L.content_count =
      getbe16 tmd L.content_count :=
    getbe16_congr _ _ _ (hfr _ (not_hash_content_count K L hV 0 (by omega)))
      (hfr _ (not_hash_content_count K L hV 1 (by omega)))
  have hcmd : ∀ i, cmdCount L (FixTmdHashes K L sha tmd).2 i = cmdCount L tmd i := fun i =>
    getbe16_congr _ _ _ (hfr _ (not_hash_cmdCount K L hV i 0 (by omega)))
      (hfr _ (not_hash_cmdCount K L hV i 1 (by omega)))
  have hcur : ∀ i, cursor L (FixTmdHashes K L sha tmd).2 i = cursor L tmd i := by
    intro i
    induction i with
    | zero => rfl
    | succ n ih => simp only [cursor, ih, hcmd]
  have hchunk : ∀ kc k, chunkBytes K (FixTmdHashes K L sha tmd).2 kc k =
      chunkBytes K tmd kc k := fun kc k =>
    readBytes_congr _ _ _ _ (fun j _ => hfr _ (not_hash_chunk K L hV _ (by omega)))
  have hw : ∀ n, n ≤ 64 →
      walked K L sha (FixTmdHashes K L sha tmd).2 (getbe16 tmd L.content_count) n =
        (FixTmdHashes K L sha tmd).2 := by
    intro n hn
    induction n with
    | zero => rfl
    | succ n ih =>
      simp only [walked, ih (by omega), hcur, hcmd, hchunk]
      split
      · rename_i hc
        apply storeDigest_self
        intro t ht
        rw [FixTmdHashes_hash_at K L sha tmd hV n t (by omega) ht, if_pos hc]
      · rfl
  rw [FixTmdHashes_eq K L sha (FixTmdHashes K L sha tmd).2 hV, hcc, hw 64 (Nat.le_refl 64)]
  rw [storeDigest_self _ _ _ (fun t ht => FixTmdHashes_top_at K L sha tmd hV t ht)]
  rfl

/-- A concrete instance: the sample TMD under the CTR layout. -/
theorem FixTmdHashes_idempotent_witness :
    ctrLayout.Valid ctrConsts ∧
    FixTmdHashes ctrConsts ctrLayout toySha (FixTmdHashes ctrConsts ctrLayout toySha sampleTmd).2 =
      FixTmdHashes ctrConsts ctrLayout toySha sampleTmd :=
  ⟨by decide, FixTmdHashes_idempotent ctrConsts ctrLayout toySha sampleTmd (by decide)⟩

/-! ### `BuildFakeTmd` -/

theorem CIA_TMD_SIZE_N_eq (K : CiaConsts) (L : TmdLayout) (hV : L.Valid K) (n : Nat)
    (hn : n ≤ 65535) :
    CIA_TMD_SIZE_N K n = K.sizeof_TitleMetaData + n * K.sizeof_TmdContentChunk := by
  obtain ⟨-, -, -, -, -, -, -, -, -, -, -, -, -, -, v15⟩ := hV
  unfold CIA_TMD_SIZE_N
  apply Nat.mod_eq_of_lt
  have := Nat.mul_le_mul_right K.sizeof_TmdContentChunk hn
  omega

/-- The buffer after a successful `BuildFakeTmd`: the described record on the first
`CIA_TMD_SIZE_N(n_contents)` bytes, the old contents behind them. -/
theorem BuildFakeTmd_bytes (K : CiaConsts) (L : TmdLayout) (tmd title_id : Mem) (n : Nat)
    (hV : L.Valid K) (hF : K.FakeTmdFits) (hn : n ≤ K.CIA_MAX_CONTENTS) (a : Nat) :
    (BuildFakeTmd K L tmd title_id n).2 a =
      if a < CIA_TMD_SIZE_N K n then fakeTmdBytes K L title_id n a else tmd a := by
  obtain ⟨hmax, hlen⟩ := hF
  have hsz := CIA_TMD_SIZE_N_eq K L hV n (by omega)
  have hmin : min K.TMD_ISSUER.length (0x40 - 1) = K.TMD_ISSUER.length := by omega
  have hn256 : n % 256 = n := Nat.mod_eq_of_lt (by omega)
  obtain ⟨v1, v2, v3, v4, v5, v6, v7, v8, v9, v10, v11, v12, -⟩ := hV
  have hci : 0 < L.sizeof_TmdContentInfo := by omega
  have hlhs : (BuildFakeTmd K L tmd title_id n).2 a =
      if L.contentinfo + L.info_hash ≤ a ∧ a < L.contentinfo + L.info_hash + 0x20 then 0xFF
      else if a = L.contentinfo + L.info_cmd_count + 1 then n
      else if L.contentinfo_hash ≤ a ∧ a < L.contentinfo_hash + 0x20 then 0xFF
      else if a = L.content_count + 1 then n
      else if L.save_size ≤ a ∧ a < L.save_size + 4 then 0
      else if a = L.title_type + 3 then 0x40
      else if L.title_id ≤ a ∧ a < L.title_id + 8 then title_id (a - L.title_id)
      else if a = L.version then 1
      else if L.issuer ≤ a ∧ a < L.issuer + K.TMD_ISSUER.length then
        K.TMD_ISSUER.getD (a - L.issuer) 0
      else if a = L.issuer + K.TMD_ISSUER.length then 0
      else if L.signature ≤ a ∧ a < L.signature + 0x100 then 0xFF
      else if L.sig_type ≤ a ∧ a < L.sig_type + 4 then K.TMD_SIG_TYPE.getD (a - L.sig_type) 0
      else if a < K.sizeof_TitleMetaData + n * K.sizeof_TmdContentChunk then 0
      else tmd a := by
    unfold BuildFakeTmd
    rw [if_neg (by omega)]
    simp only [memset, memcpy, store8, snprintf, hmin, hn256, hsz, Nat.zero_mul,
      Nat.add_zero, Nat.zero_le, true_and, Nat.zero_add, Nat.reduceMod, Nat.reduceSub,
      Nat.reduceLT]
  rw [hlhs, hsz]
  unfold fakeTmdBytes
  by_cases h1 : L.sig_type ≤ a ∧ a < L.sig_type + 4
  · simp (disch := omega) only [if_pos, if_neg]
  by_cases h2 : L.signature ≤ a ∧ a < L.signature + 0x100
  · clear h1
    simp (disch := omega) only [if_pos, if_neg]
  by_cases h3 : L.issuer ≤ a ∧ a < L.issuer + K.TMD_ISSUER.length
  · clear h1 h2
    simp (disch := omega) only [if_pos, if_neg]
  by_cases h4 : a = L.version
  · clear h1 h2 h3
    simp (disch := omega) only [if_pos, if_neg]
  by_cases h5 : L.title_id ≤ a ∧ a < L.title_id + 8
  · clear h1 h2 h3 h4
    simp (disch := omega) only [if_pos, if_neg]
  by_cases h6 : a = L.title_type + 3
  · clear h1 h2 h3 h4 h5
    simp (disch := omega) only [if_pos, if_neg]
  by_cases h7 : a = L.content_count + 1
  · clear h1 h2 h3 h4 h5 h6
    simp (disch := omega) only [if_pos, if_neg]
  by_cases h8 : L.contentinfo_hash ≤ a ∧ a < L.contentinfo_hash + 0x20
  · clear h1 h2 h3 h4 h5 h6 h7
    simp (disch := omega) only [if_pos, if_neg]
  by_cases h9 : a = L.contentinfo + L.info_cmd_count + 1
  · clear h1 h2 h3 h4 h5 h6 h7 h8
    simp (disch := omega) only [if_pos, if_neg]
  by_cases h10 : L.contentinfo + L.info_hash ≤ a ∧ a < L.contentinfo + L.info_hash + 0x20
  · clear h1 h2 h3 h4 h5 h6 h7 h8 h9
    simp (disch := omega) only [if_pos, if_neg]
  simp only [h1, h2, h3, h4, h5, h6, h7, h8, h9, h10, if_false]
  by_cases hlt : a < K.sizeof_TitleMetaData + n * K.sizeof_TmdContentChunk
  · simp only [hlt, if_true, ite_self]
  · clear h1 h2 h3 h4 h5 h6 h7 h8 h9 h10
    simp (disch := omega) only [if_pos, if_neg]

/-! ### The capacity check (C7) -/

/-- C7: `BuildFakeTmd` returns 1 exactly when `n_contents` is greater than `CIA_MAX_CONTENTS`
and 0 otherwise; it succeeds at the maximum, fails one above it, and a failing call leaves the
buffer unchanged. -/
theorem BuildFakeTmd_fails_iff (K : CiaConsts) (L : TmdLayout) (tmd title_id : Mem) (n : Nat) :
    ((BuildFakeTmd K L tmd title_id n).1 = 1 ↔ n > K.CIA_MAX_CONTENTS) ∧
    ((BuildFakeTmd K L tmd title_id n).1 = 0 ↔ n ≤ K.CIA_MAX_CONTENTS) ∧
    (BuildFakeTmd K L tmd title_id K.CIA_MAX_CONTENTS).1 = 0 ∧
    (BuildFakeTmd K L tmd title_id (K.CIA_MAX_CONTENTS + 1)).1 = 1 ∧
    (n > K.CIA_MAX_CONTENTS → (BuildFakeTmd K L tmd title_id n).2 = tmd) := by
  have key : ∀ k, (BuildFakeTmd K L tmd title_id k).1 =
      if k > K.CIA_MAX_CONTENTS then 1 else 0 := by
    intro k
    unfold BuildFakeTmd
    split <;> rfl
  refine ⟨?_, ?_, ?_, ?_, ?_⟩
  · rw [key]
    split <;> simp_all
  · rw [key]
    split <;> simp_all
  · rw [key, if_neg (by omega)]
  · rw [key, if_pos (by omega)]
  · intro h
    unfold BuildFakeTmd
    rw [if_pos h]

/-- A concrete instance: with the CTR constants, 102 contents are refused
and the buffer is left as it was. -/
theorem BuildFakeTmd_fails_iff_witness :
    102 > ctrConsts.CIA_MAX_CONTENTS ∧
    (BuildFakeTmd ctrConsts ctrLayout sampleTmd sampleTitleId 102).2 = sampleTmd :=
  ⟨by decide,
    (BuildFakeTmd_fails_iff ctrConsts ctrLayout sampleTmd sampleTitleId 102).2.2.2.2
      (by decide)⟩

/-! ### The counts (C8) -/

/-- C8: after a successful `BuildFakeTmd`, `content_count` and the `cmd_count` of the first
entry decode (big-endian, 16 bit) to `n_contents`, and the `cmd_count` of every other entry
is 0. -/
theorem BuildFakeTmd_counts (K : CiaConsts) (L : TmdLayout) (tmd title_id : Mem) (n : Nat)
    (hV : L.Valid K) (hF : K.FakeTmdFits) (hn : n ≤ K.CIA_MAX_CONTENTS) :
    (BuildFakeTmd K L tmd title_id n).1 = 0 ∧
    getbe16 (BuildFakeTmd K L tmd title_id n).2 L.content_count = n ∧
    cmdCount L (BuildFakeTmd K L tmd title_id n).2 0 = n ∧
    ∀ i, 1 ≤ i → i < 64 → cmdCount L (BuildFakeTmd K L tmd title_id n).2 i = 0 := by
  have hb := BuildFakeTmd_bytes K L tmd title_id n hV hF hn
  have hsz := CIA_TMD_SIZE_N_eq K L hV n (by have := hF.1; omega)
  have hmax := hF.1
  have hlen := hF.2
  have hn256 : n % 256 = n := Nat.mod_eq_of_lt (by omega)
  obtain ⟨v1, v2, v3, v4, v5, v6, v7, v8, v9, v10, v11, v12, -⟩ := hV
  refine ⟨?_, ?_, ?_, ?_⟩
  · unfold BuildFakeTmd
    rw [if_neg (by omega)]
  · unfold getbe16
    rw [hb, hb, hsz]
    simp (disch := omega) only [fakeTmdBytes, if_pos, if_neg, if_true, if_false]
    omega
  · unfold cmdCount getbe16
    rw [hb, hb, hsz]
    simp (disch := omega) only [fakeTmdBytes, if_pos, if_neg, if_true, if_false, Nat.zero_mul, Nat.add_zero]
    omega
  · intro i hi1 hi2
    have h1 := mul_succ_le 0 i L.sizeof_TmdContentInfo (by omega)
    have h2 := mul_succ_le i 64 L.sizeof_TmdContentInfo hi2
    unfold cmdCount getbe16
    rw [hb, hb, hsz]
    simp (disch := omega) only [fakeTmdBytes, if_pos, if_neg, if_true, if_false]

/-- A concrete instance: the CTR constants and layout, three contents. -/
theorem BuildFakeTmd_counts_witness :
    getbe16 (BuildFakeTmd ctrConsts ctrLayout zeroMem sampleTitleId 3).2
      ctrLayout.content_count = 3 ∧
    cmdCount ctrLayout (BuildFakeTmd ctrConsts ctrLayout zeroMem sampleTitleId 3).2 0 = 3 :=
  have t := BuildFakeTmd_counts ctrConsts ctrLayout zeroMem sampleTitleId 3
    (by decide) (by decide) (by decide)
  ⟨t.2.1, t.2.2.1⟩

/-! ### The synthesized record (C9) -/

/-- C9: a successful `BuildFakeTmd` returns 0 and leaves, on the first
`CIA_TMD_SIZE_N(n_contents)` bytes of the buffer, the record `fakeTmdBytes`: the signature type
tag, 0x100 signature bytes `0xFF`, the issuer string, version 1, the given title id,
`title_type[3] = 0x40`, `n_contents` in the low byte of `content_count` and of the first
entry's `cmd_count`, 32 bytes `0xFF` in `contentinfo_hash` and in the first entry's hash, and
zero in every other byte, among them the save-size field and the whole chunk region. -/
theorem BuildFakeTmd_record (K : CiaConsts) (L : TmdLayout) (tmd title_id : Mem) (n : Nat)
    (hV : L.Valid K) (hF : K.FakeTmdFits) (hn : n ≤ K.CIA_MAX_CONTENTS) :
    (BuildFakeTmd K L tmd title_id n).1 = 0 ∧
    (∀ a, a < CIA_TMD_SIZE_N K n →
      (BuildFakeTmd K L tmd title_id n).2 a = fakeTmdBytes K L title_id n a) ∧
    (∀ j, j < 4 →
      (BuildFakeTmd K L tmd title_id n).2 (L.sig_type + j) = K.TMD_SIG_TYPE.getD j 0) ∧
    (∀ j, j < 0x100 → (BuildFakeTmd K L tmd title_id n).2 (L.signature + j) = 0xFF) ∧
    (∀ j, j < 0x40 →
      (BuildFakeTmd K L tmd title_id n).2 (L.issuer + j) = K.TMD_ISSUER.getD j 0) ∧
    (BuildFakeTmd K L tmd title_id n).2 L.version = 1 ∧
    (∀ j, j < 8 → (BuildFakeTmd K L tmd title_id n).2 (L.title_id + j) = title_id j) ∧
    (BuildFakeTmd K L tmd title_id n).2 (L.title_type + 3) = 0x40 ∧
    (∀ j, j < 4 → (BuildFakeTmd K L tmd title_id n).2 (L.save_size + j) = 0) ∧
    ((BuildFakeTmd K L tmd title_id n).2 L.content_count = 0 ∧
      (BuildFakeTmd K L tmd title_id n).2 (L.content_count + 1) = n) ∧
    ((BuildFakeTmd K L tmd title_id n).2 (L.contentinfo + L.info_cmd_count) = 0 ∧
      (BuildFakeTmd K L tmd title_id n).2 (L.contentinfo + L.info_cmd_count + 1) = n) ∧
    (∀ j, j < 0x20 → (BuildFakeTmd K L tmd title_id n).2 (L.contentinfo_hash + j) = 0xFF) ∧
    (∀ j, j < 0x20 → (BuildFakeTmd K L tmd title_id n).2 (infoHash L 0 + j) = 0xFF) ∧
    (∀ a, K.sizeof_TitleMetaData ≤ a → a < CIA_TMD_SIZE_N K n →
      (BuildFakeTmd K L tmd title_id n).2 a = 0) := by
  have hb := BuildFakeTmd_bytes K L tmd title_id n hV hF hn
  have hsz := CIA_TMD_SIZE_N_eq K L hV n (by have := hF.1; omega)
  have hmax := hF.1
  have hlen := hF.2
  obtain ⟨v1, v2, v3, v4, v5, v6, v7, v8, v9, v10, v11, v12, -⟩ := hV
  have h64 := mul_succ_le 0 64 L.sizeof_TmdContentInfo (by omega)
  refine ⟨?_, ?_, ?_, ?_, ?_, ?_, ?_, ?_, ?_, ⟨?_, ?_⟩, ⟨?_, ?_⟩, ?_, ?_, ?_⟩
  · unfold BuildFakeTmd
    rw [if_neg (by omega)]
  · intro a ha
    rw [hb, if_pos ha]
  · intro j hj
    rw [hb, hsz]
    simp (disch := omega) only [fakeTmdBytes, if_pos, if_neg, if_true, if_false, Nat.add_sub_cancel_left]
  · intro j hj
    rw [hb, hsz]
    simp (disch := omega) only [fakeTmdBytes, if_pos, if_neg, if_true, if_false]
  · intro j hj
    rw [hb, hsz]
    by_cases hjl : j < K.TMD_ISSUER.length
    · simp (disch := omega) only [fakeTmdBytes, if_pos, if_neg, if_true, if_false, Nat.add_sub_cancel_left]
    · simp (disch := omega) only [fakeTmdBytes, if_pos, if_neg, if_true, if_false]
      rw [List.getD_eq_default _ _ (by omega)]
  · rw [hb, hsz]
    simp (disch := omega) only [fakeTmdBytes, if_pos, if_neg, if_true, if_false]
  · intro j hj
    rw [hb, hsz]
    simp (disch := omega) only [fakeTmdBytes, if_pos, if_neg, if_true, if_false, Nat.add_sub_cancel_left]
  · rw [hb, hsz]
    simp (disch := omega) only [fakeTmdBytes, if_pos, if_neg, if_true, if_false]
  · intro j hj
    rw [hb, hsz]
    simp (disch := omega) only [fakeTmdBytes, if_pos, if_neg, if_true, if_false]
  · rw [hb, hsz]
    simp (disch := omega) only [fakeTmdBytes, if_pos, if_neg, if_true, if_false]
  · rw [hb, hsz]
    simp (disch := omega) only [fakeTmdBytes, if_pos, if_neg, if_true, if_false]
  · rw [hb, hsz]
    simp (disch := omega) only [fakeTmdBytes, if_pos, if_neg, if_true, if_false]
  · rw [hb, hsz]
    simp (disch := omega) only [fakeTmdBytes, if_pos, if_neg, if_true, if_false]
  · intro j hj
    rw [hb, hsz]
    simp (disch := omega) only [fakeTmdBytes, if_pos, if_neg, if_true, if_false]
  · intro j hj
    unfold infoHash
    rw [hb, hsz]
    simp (disch := omega) only [fakeTmdBytes, if_pos, if_neg, if_true, if_false, Nat.zero_mul, Nat.add_zero]
  · intro a ha1 ha2
    rw [hb, if_pos ha2]
    simp (disch := omega) only [fakeTmdBytes, if_pos, if_neg, if_true, if_false]

/-- A concrete instance: the CTR constants and layout, one content, the title
id `00040000 00132201`. -/
theorem BuildFakeTmd_record_witness :
    (ctrLayout.Valid ctrConsts ∧ ctrConsts.FakeTmdFits ∧ 1 ≤ ctrConsts.CIA_MAX_CONTENTS) ∧
    (BuildFakeTmd ctrConsts ctrLayout zeroMem sampleTitleId 1).1 = 0 ∧
    (∀ a, a < CIA_TMD_SIZE_N ctrConsts 1 →
      (BuildFakeTmd ctrConsts ctrLayout zeroMem sampleTitleId 1).2 a =
        fakeTmdBytes ctrConsts ctrLayout sampleTitleId 1 a) :=
  have t := BuildFakeTmd_record ctrConsts ctrLayout zeroMem sampleTitleId 1
    (by decide) (by decide) (by decide)
  ⟨⟨by decide, by decide, by decide⟩, t.1, t.2.1⟩

/-! ### `FixCiaHeaderForTmd`: the sizes (C10) -/

/-- One iteration of the loop of `FixCiaHeaderForTmd`. -/
theorem FixCiaHeaderForTmd_loop_step (K : CiaConsts) (L : TmdLayout) (tmd : Mem)
    (c fuel i : Nat) (h : CiaHeader) :
    FixCiaHeaderForTmd_loop K L tmd c (fuel + 1) i h =
      if i < c then
        FixCiaHeaderForTmd_loop K L tmd c fuel (i + 1)
          { h with
            size_content :=
              (h.size_content +
                getbe64 tmd (K.sizeof_TitleMetaData + i * K.sizeof_TmdContentChunk +
                  L.chunk_size)) % 2 ^ 64
            content_index := fun p =>
              if p = getbe16 tmd (K.sizeof_TitleMetaData + i * K.sizeof_TmdContentChunk +
                  L.chunk_index) / 8 then
                (h.content_index p |||
                  (1 <<< (7 - getbe16 tmd (K.sizeof_TitleMetaData +
                    i * K.sizeof_TmdContentChunk + L.chunk_index) % 8))) % 256
              else h.content_index p }
      else h :=
  rfl

/-- The `content_count` iterations granted to the loop of `FixCiaHeaderForTmd` are enough:
once the bound covers the chunks from `i` on, a larger bound gives the same header. -/
theorem FixCiaHeaderForTmd_loop_fuel (K : CiaConsts) (L : TmdLayout) (tmd : Mem)
    (c fuel i : Nat) (h : CiaHeader) (hc : c ≤ i + fuel) :
    FixCiaHeaderForTmd_loop K L tmd c (fuel + 1) i h =
      FixCiaHeaderForTmd_loop K L tmd c fuel i h := by
  induction fuel generalizing i h with
  | zero =>
    rw [FixCiaHeaderForTmd_loop_step, if_neg (by omega)]
    rfl
  | succ fuel ih =>
    by_cases hcnd : i < c
    · rw [FixCiaHeaderForTmd_loop_step K L tmd c (fuel + 1) i h, if_pos hcnd,
        FixCiaHeaderForTmd_loop_step K L tmd c fuel i h, if_pos hcnd]
      exact ih _ _ (by omega)
    · rw [FixCiaHeaderForTmd_loop_step K L tmd c (fuel + 1) i h, if_neg hcnd,
        FixCiaHeaderForTmd_loop_step K L tmd c fuel i h, if_neg hcnd]

/-- The loop does not touch `size_tmd`. -/
theorem FixCiaHeaderForTmd_loop_size_tmd (K : CiaConsts) (L : TmdLayout) (tmd : Mem)
    (c fuel i : Nat) (h : CiaHeader) :
    (FixCiaHeaderForTmd_loop K L tmd c fuel i h).size_tmd = h.size_tmd := by
  induction fuel generalizing i h with
  | zero => rfl
  | succ fuel ih =>
    simp only [FixCiaHeaderForTmd_loop]
    split
    · rw [ih]
    · rfl

/-- The loop, started at chunk `i` with the 64-bit sum of the sizes before it, ends with the
64-bit sum of all `c` sizes. -/
theorem FixCiaHeaderForTmd_loop_size_content (K : CiaConsts) (L : TmdLayout) (tmd : Mem)
    (c fuel i : Nat) (h : CiaHeader) (hfuel : i + fuel = c)
    (hs : h.size_content = sizeSum K L tmd i % 2 ^ 64) :
    (FixCiaHeaderForTmd_loop K L tmd c fuel i h).size_content = sizeSum K L tmd c % 2 ^ 64 := by
  induction fuel generalizing i h with
  | zero =>
    have : i = c := by omega
    subst this
    exact hs
  | succ fuel ih =>
    simp only [FixCiaHeaderForTmd_loop]
    rw [if_pos (by omega)]
    apply ih (i + 1) _ (by omega)
    simp only [sizeSum, chunkSize, hs, Nat.mod_add_mod]

/-- C10, as amended: `FixCiaHeaderForTmd` returns 0, sets `size_tmd` to `CIA_TMD_SIZE_N(c)` for
the big-endian content count `c` of the TMD, and sets `size_content` to the sum of the declared
sizes of the first `c` chunks reduced modulo `2 ^ 64`, whatever the header held before; this is
the sum itself when the sum is below `2 ^ 64`. For the TMD built by `BuildFakeTmd` for one
content, with one chunk of index 0 and declared size 0x1000, `size_content` is 0x1000. -/
theorem FixCiaHeaderForTmd_sizes (K : CiaConsts) (L : TmdLayout) (header : CiaHeader)
    (tmd : Mem) :
    (FixCiaHeaderForTmd K L header tmd).1 = 0 ∧
    (FixCiaHeaderForTmd K L header tmd).2.size_tmd =
      CIA_TMD_SIZE_N K (getbe16 tmd L.content_count) ∧
    (FixCiaHeaderForTmd K L header tmd).2.size_content =
      sizeSum K L tmd (getbe16 tmd L.content_count) % 2 ^ 64 ∧
    (sizeSum K L tmd (getbe16 tmd L.content_count) < 2 ^ 64 →
      (FixCiaHeaderForTmd K L header tmd).2.size_content =
        sizeSum K L tmd (getbe16 tmd L.content_count)) ∧
    (FixCiaHeaderForTmd ctrConsts ctrLayout header sampleTmd).2.size_content = 0x1000 := by
  have hsc : ∀ (K2 : CiaConsts) (L2 : TmdLayout) (t : Mem),
      (FixCiaHeaderForTmd K2 L2 header t).2.size_content =
        sizeSum K2 L2 t (getbe16 t L2.content_count) % 2 ^ 64 := by
    intro K2 L2 t
    simp only [FixCiaHeaderForTmd]
    exact FixCiaHeaderForTmd_loop_size_content K2 L2 t _ _ 0 _ (by omega) rfl
  refine ⟨rfl, ?_, hsc K L tmd, ?_, ?_⟩
  · simp only [FixCiaHeaderForTmd]
    rw [FixCiaHeaderForTmd_loop_size_tmd]
  · intro hlt
    rw [hsc, Nat.mod_eq_of_lt hlt]
  · rw [hsc]
    decide

/-- A concrete instance: the concrete scenario, where the declared sizes
add up to 0x1000. -/
theorem FixCiaHeaderForTmd_sizes_witness :
    sizeSum ctrConsts ctrLayout sampleTmd (getbe16 sampleTmd ctrLayout.content_count) < 2 ^ 64 ∧
    (FixCiaHeaderForTmd ctrConsts ctrLayout zeroHeader sampleTmd).2.size_content =
      sizeSum ctrConsts ctrLayout sampleTmd (getbe16 sampleTmd ctrLayout.content_count) :=
  ⟨by decide,
    (FixCiaHeaderForTmd_sizes ctrConsts ctrLayout zeroHeader sampleTmd).2.2.2.1 (by decide)⟩

/-- C10 fails as stated: for a TMD with two chunks of declared sizes `2 ^ 64 - 1` and 1 the sum
of the declared sizes is `2 ^ 64`, and `FixCiaHeaderForTmd` leaves `size_content = 0`. -/
theorem FixCiaHeaderForTmd_size_content_wraps :
    getbe16 overflowTmd ctrLayout.content_count = 2 ∧
    chunkSize ctrConsts ctrLayout overflowTmd 0 = 2 ^ 64 - 1 ∧
    chunkSize ctrConsts ctrLayout overflowTmd 1 = 1 ∧
    sizeSum ctrConsts ctrLayout overflowTmd 2 = 2 ^ 64 ∧
    (FixCiaHeaderForTmd ctrConsts ctrLayout zeroHeader overflowTmd).2.size_content = 0 ∧
    (FixCiaHeaderForTmd ctrConsts ctrLayout zeroHeader overflowTmd).2.size_content ≠
      sizeSum ctrConsts ctrLayout overflowTmd
        (getbe16 overflowTmd ctrLayout.content_count) := by
  decide

/-! ### `FixCiaHeaderForTmd`: the bitmap (C11, C19) -/

/-- The loop, started at chunk `i` with the bitmap of the chunks before it, ends with the
bitmap of all `c` chunks. -/
theorem FixCiaHeaderForTmd_loop_content_index (K : CiaConsts) (L : TmdLayout) (tmd : Mem)
    (b0 : Nat → Nat) (c fuel i : Nat) (h : CiaHeader) (hfuel : i + fuel = c)
    (hs : h.content_index = bitmapAfter K L tmd b0 i) :
    (FixCiaHeaderForTmd_loop K L tmd c fuel i h).content_index = bitmapAfter K L tmd b0 c := by
  induction fuel generalizing i h with
  | zero =>
    have : i = c := by omega
    subst this
    exact hs
  | succ fuel ih =>
    rw [FixCiaHeaderForTmd_loop_step, if_pos (by omega)]
    apply ih (i + 1) _ (by omega)
    simp only [bitmapAfter, chunkIndex, hs]

/-- The bitmap of `FixCiaHeaderForTmd`: the cleared array with the chunks entered. -/
theorem FixCiaHeaderForTmd_content_index (K : CiaConsts) (L : TmdLayout) (header : CiaHeader)
    (tmd : Mem) :
    (FixCiaHeaderForTmd K L header tmd).2.content_index =
      bitmapAfter K L tmd
        (fun p => if p < K.sizeof_content_index then 0 else header.content_index p)
        (getbe16 tmd L.content_count) := by
  simp only [FixCiaHeaderForTmd]
  exact FixCiaHeaderForTmd_loop_content_index K L tmd _ _ _ 0 _ (by omega) rfl

/-- A bit of a byte that was clear at the start is set exactly by the chunks whose index
selects it. -/
theorem bitmapAfter_testBit (K : CiaConsts) (L : TmdLayout) (tmd : Mem) (b0 : Nat → Nat)
    (p : Nat) (hp : b0 p = 0) (n b : Nat) :
    (bitmapAfter K L tmd b0 n p).testBit b = true ↔
      ∃ i, i < n ∧ chunkIndex K L tmd i / 8 = p ∧ 7 - chunkIndex K L tmd i % 8 = b := by
  induction n generalizing b with
  | zero => simp [bitmapAfter, hp]
  | succ n ih =>
    simp only [bitmapAfter]
    split
    · rename_i hpn
      rw [show (256 : Nat) = 2 ^ 8 from rfl, Nat.testBit_mod_two_pow, Nat.testBit_or,
        Nat.one_shiftLeft, Nat.testBit_two_pow]
      simp only [Bool.and_eq_true, Bool.or_eq_true, decide_eq_true_eq, ih]
      constructor
      · rintro ⟨_, ⟨i, hi, h1, h2⟩ | h⟩
        · exact ⟨i, by omega, h1, h2⟩
        · exact ⟨n, by omega, hpn.symm, h⟩
      · rintro ⟨i, hi, h1, h2⟩
        refine ⟨by omega, ?_⟩
        by_cases hin : i = n
        · subst hin
          exact Or.inr h2
        · exact Or.inl ⟨i, by omega, h1, h2⟩
    · rename_i hpn
      rw [ih]
      constructor
      · rintro ⟨i, hi, h1, h2⟩
        exact ⟨i, by omega, h1, h2⟩
      · rintro ⟨i, hi, h1, h2⟩
        have : i ≠ n := fun e => hpn (by rw [← h1, e])
        exact ⟨i, by omega, h1, h2⟩

/-- A bit below 8 that is set stays set when further chunks are entered. -/
theorem bitmapAfter_testBit_mono (K : CiaConsts) (L : TmdLayout) (tmd : Mem) (b0 : Nat → Nat)
    (p b n : Nat) (hb : b < 8) (h : (bitmapAfter K L tmd b0 n p).testBit b = true) :
    (bitmapAfter K L tmd b0 (n + 1) p).testBit b = true := by
  simp only [bitmapAfter]
  split
  · rw [show (256 : Nat) = 2 ^ 8 from rfl, Nat.testBit_mod_two_pow, Nat.testBit_or, h]
    simp [hb]
  · exact h

/-- The bit of every entered chunk is set, whatever the bitmap held at the start. -/
theorem bitmapAfter_set (K : CiaConsts) (L : TmdLayout) (tmd : Mem) (b0 : Nat → Nat)
    (n i : Nat) (hi : i < n) :
    (bitmapAfter K L tmd b0 n (chunkIndex K L tmd i / 8)).testBit
      (7 - chunkIndex K L tmd i % 8) = true := by
  induction n with
  | zero => omega
  | succ n ih =>
    by_cases hin : i = n
    · subst hin
      simp only [bitmapAfter, if_true]
      rw [show (256 : Nat) = 2 ^ 8 from rfl, Nat.testBit_mod_two_pow, Nat.testBit_or,
        Nat.one_shiftLeft, Nat.testBit_two_pow_self]
      simp
      omega
    · exact bitmapAfter_testBit_mono K L tmd b0 _ _ n (by omega) (ih (by omega))

/-- Bytes that no chunk selects keep their value. -/
theorem bitmapAfter_other (K : CiaConsts) (L : TmdLayout) (tmd : Mem) (b0 : Nat → Nat)
    (n p : Nat) (h : ∀ i, i < n → chunkIndex K L tmd i / 8 ≠ p) :
    bitmapAfter K L tmd b0 n p = b0 p := by
  induction n with
  | zero => rfl
  | succ n ih =>
    simp only [bitmapAfter]
    rw [if_neg (fun e => h n (by omega) e.symm)]
    exact ih (fun i hi => h i (by omega))

/-- C11: after `FixCiaHeaderForTmd`, for every declared chunk `i` (below the content count)
with index `x`, bit `7 - x % 8` of byte `x / 8` of the bitmap is set; and in every byte of the
bitmap (the `sizeof(content_index)` bytes the code clears first) a bit is set only if it is the
bit of some declared chunk. For the TMD built by `BuildFakeTmd` for one content with one chunk
of index 0, byte 0 is `0x80` and all other bytes are 0. -/
theorem FixCiaHeaderForTmd_bitmap (K : CiaConsts) (L : TmdLayout) (header : CiaHeader)
    (tmd : Mem) :
    (∀ i, i < getbe16 tmd L.content_count →
      ((FixCiaHeaderForTmd K L header tmd).2.content_index
        (chunkIndex K L tmd i / 8)).testBit (7 - chunkIndex K L tmd i % 8) = true) ∧
    (∀ p b, p < K.sizeof_content_index →
      ((FixCiaHeaderForTmd K L header tmd).2.content_index p).testBit b = true →
      ∃ i, i < getbe16 tmd L.content_count ∧
        chunkIndex K L tmd i / 8 = p ∧ 7 - chunkIndex K L tmd i % 8 = b) ∧
    ((FixCiaHeaderForTmd ctrConsts ctrLayout header sampleTmd).2.content_index 0 = 0x80 ∧
      ∀ p, 0 < p → p < ctrConsts.sizeof_content_index →
        (FixCiaHeaderForTmd ctrConsts ctrLayout header sampleTmd).2.content_index p = 0) := by
  refine ⟨?_, ?_, ?_, ?_⟩
  · intro i hi
    rw [FixCiaHeaderForTmd_content_index]
    exact bitmapAfter_set K L tmd _ _ i hi
  · intro p b hp hbit
    rw [FixCiaHeaderForTmd_content_index] at hbit
    exact (bitmapAfter_testBit K L tmd _ p (by simp only [if_pos hp]) _ b).1 hbit
  · rw [FixCiaHeaderForTmd_content_index]
    have hc : getbe16 sampleTmd ctrLayout.content_count = 1 := by decide
    have hx : chunkIndex ctrConsts ctrLayout sampleTmd 0 = 0 := by decide
    rw [hc]
    simp only [bitmapAfter, hx, if_pos (show 0 < ctrConsts.sizeof_content_index by decide),
      if_true]
    decide
  · intro p hp0 hp
    rw [FixCiaHeaderForTmd_content_index]
    have hc : getbe16 sampleTmd ctrLayout.content_count = 1 := by decide
    have hx : chunkIndex ctrConsts ctrLayout sampleTmd 0 = 0 := by decide
    rw [hc, bitmapAfter_other]
    · simp only [if_pos hp]
    · intro i hi
      have : i = 0 := by omega
      subst this
      rw [hx]
      omega

/-- A concrete instance: the sample TMD with one chunk of index 0. -/
theorem FixCiaHeaderForTmd_bitmap_witness :
    0 < getbe16 sampleTmd ctrLayout.content_count ∧
    ((FixCiaHeaderForTmd ctrConsts ctrLayout zeroHeader sampleTmd).2.content_index
      (chunkIndex ctrConsts ctrLayout sampleTmd 0 / 8)).testBit
        (7 - chunkIndex ctrConsts ctrLayout sampleTmd 0 % 8) = true :=
  ⟨by decide,
    (FixCiaHeaderForTmd_bitmap ctrConsts ctrLayout zeroHeader sampleTmd).1 0 (by decide)⟩

/-- The bytes of the buffer after `GetTmdCtr`. -/
theorem GetTmdCtr_bytes (L : TmdLayout) (ctr chunk : Mem) (j : Nat) :
    (GetTmdCtr L ctr chunk).2 j =
      if j < 2 then chunk (L.chunk_index + j) else if j < 16 then 0 else ctr j := by
  simp only [GetTmdCtr, memset, memcpy, Nat.zero_le, true_and, Nat.zero_add, Nat.sub_zero,
    Nat.zero_mod]

/-- C13: `GetTmdCtr` returns 0 and leaves in the first 16 bytes of the output buffer the two
bytes of the chunk's `index` field followed by 14 zero bytes, whatever the buffer held before;
the first two bytes decode (big-endian) to the chunk's content index. The chunk record is only
read. -/
theorem GetTmdCtr_iv (L : TmdLayout) (ctr chunk : Mem) :
    (GetTmdCtr L ctr chunk).1 = 0 ∧
    (GetTmdCtr L ctr chunk).2 0 = chunk L.chunk_index ∧
    (GetTmdCtr L ctr chunk).2 1 = chunk (L.chunk_index + 1) ∧
    getbe16 (GetTmdCtr L ctr chunk).2 0 = getbe16 chunk L.chunk_index ∧
    (∀ j, 2 ≤ j → j < 16 → (GetTmdCtr L ctr chunk).2 j = 0) ∧
    (∀ j, 16 ≤ j → (GetTmdCtr L ctr chunk).2 j = ctr j) := by
  refine ⟨rfl, ?_, ?_, ?_, ?_, ?_⟩
  · rw [GetTmdCtr_bytes]
    simp
  · rw [GetTmdCtr_bytes]
    simp
  · unfold getbe16
    rw [GetTmdCtr_bytes, GetTmdCtr_bytes]
    simp
  · intro j h2 h16
    rw [GetTmdCtr_bytes, if_neg (by omega), if_pos h16]
  · intro j h16
    rw [GetTmdCtr_bytes, if_neg (by omega), if_neg (by omega)]

/-- A concrete instance: a chunk with content index `0x0102` and an output buffer that held
other bytes. -/
theorem GetTmdCtr_iv_witness :
    getbe16 (GetTmdCtr ctrLayout sampleKey sampleChunk).2 0 = 0x0102 ∧
    ∀ j, 2 ≤ j → j < 16 → (GetTmdCtr ctrLayout sampleKey sampleChunk).2 j = 0 :=
  ⟨(GetTmdCtr_iv ctrLayout sampleKey sampleChunk).2.2.2.1.trans (by decide),
    (GetTmdCtr_iv ctrLayout sampleKey sampleChunk).2.2.2.2.1⟩

/-! ### The content cipher (C12, C14) -/

theorem xorBlock_length (a b : List Nat) (h : a.length = b.length) :
    (xorBlock a b).length = a.length := by
  unfold xorBlock
  rw [List.length_zipWith, h, Nat.min_self]

theorem xorBlock_cancel (a b : List Nat) (h : a.length = b.length) :
    xorBlock (xorBlock a b) b = a := by
  unfold xorBlock
  induction a generalizing b with
  | nil => simp
  | cons x xs ih =>
    cases b with
    | nil => simp at h
    | cons y ys =>
      simp only [List.zipWith_cons_cons, List.cons.injEq]
      refine ⟨?_, ih ys (by simpa using h)⟩
      rw [Nat.xor_assoc, Nat.xor_self, Nat.xor_zero]

theorem readBytes_length (m : Mem) (src n : Nat) : (readBytes m src n).length = n := by
  unfold readBytes
  simp

/-- Chained-block decryption undoes chained-block encryption with the same key and the same
initialization vector, on a buffer that holds the `blocks` blocks. -/
theorem cbc_decrypt_encrypt (C : BlockCipher) (hC : C.Invertible) (key : List Nat)
    (blocks : Nat) (ctr data : List Nat) (hctr : ctr.length = 16)
    (hdata : 16 * blocks ≤ data.length) :
    (cbc_decrypt C key blocks ctr (cbc_encrypt C key blocks ctr data).1).1 = data := by
  obtain ⟨hE, hD, hDE⟩ := hC
  induction blocks generalizing ctr data with
  | zero => rfl
  | succ n ih =>
    have htake : (data.take 16).length = 16 := by
      rw [List.length_take]
      omega
    have hx : (xorBlock (data.take 16) ctr).length = 16 := by
      rw [xorBlock_length _ _ (by omega), htake]
    have hc := hE key _ hx
    simp only [cbc_encrypt, cbc_decrypt]
    rw [List.take_left' hc, List.drop_left' hc, hDE key _ hx,
      xorBlock_cancel _ _ (by omega), ih _ _ hc (by rw [List.length_drop]; omega)]
    exact List.take_append_drop 16 data

/-- The transform leaves the bytes behind the last whole block alone and keeps the length. -/
theorem cbc_encrypt_tail (C : BlockCipher) (hC : C.Invertible) (key : List Nat)
    (blocks : Nat) (ctr data : List Nat) (hctr : ctr.length = 16)
    (hdata : 16 * blocks ≤ data.length) :
    (cbc_encrypt C key blocks ctr data).1.drop (16 * blocks) = data.drop (16 * blocks) := by
  obtain ⟨hE, hD, hDE⟩ := hC
  induction blocks generalizing ctr data with
  | zero => rfl
  | succ n ih =>
    have htake : (data.take 16).length = 16 := by
      rw [List.length_take]
      omega
    have hx : (xorBlock (data.take 16) ctr).length = 16 := by
      rw [xorBlock_length _ _ (by omega), htake]
    have hc := hE key _ hx
    simp only [cbc_encrypt]
    rw [show 16 * (n + 1) = 16 + 16 * n by omega, ← List.drop_drop, List.drop_left' hc,
      ih _ _ hc (by rw [List.length_drop]; omega), List.drop_drop]

theorem cbc_decrypt_tail (C : BlockCipher) (hC : C.Invertible) (key : List Nat)
    (blocks : Nat) (ctr data : List Nat) (hctr : ctr.length = 16)
    (hdata : 16 * blocks ≤ data.length) :
    (cbc_decrypt C key blocks ctr data).1.drop (16 * blocks) = data.drop (16 * blocks) := by
  obtain ⟨hE, hD, hDE⟩ := hC
  induction blocks generalizing ctr data with
  | zero => rfl
  | succ n ih =>
    have htake : (data.take 16).length = 16 := by
      rw [List.length_take]
      omega
    have hx : (xorBlock (C.dec key (data.take 16)) ctr).length = 16 := by
      rw [xorBlock_length _ _ (by rw [hD key _ htake, hctr]), hD key _ htake]
    simp only [cbc_decrypt]
    rw [show 16 * (n + 1) = 16 + 16 * n by omega, ← List.drop_drop, List.drop_left' hx,
      ih _ _ htake (by rw [List.length_drop]; omega), List.drop_drop]

theorem toyCipher_invertible : toyCipher.Invertible := by
  refine ⟨?_, ?_, ?_⟩
  · intro key block h
    simp [toyCipher, h]
  · intro key block h
    simp [toyCipher, h]
  · intro key block _
    simp only [toyCipher, List.map_map]
    conv_rhs => rw [← List.map_id block]
    apply List.map_congr_left
    intro x _
    simp only [Function.comp_apply, id_eq]
    rw [Nat.xor_assoc, Nat.xor_self, Nat.xor_zero]

/-- C12: for a content buffer whose length `size` is a multiple of 16, a title key and the
initialization vector that `GetTmdCtr` derives from a chunk's content index,
`EncryptCiaContentSequential` followed by `DecryptCiaContentSequential` with the same key and
the same vector gives back the original bytes; both calls return 0. `cbc_encrypt` and
`cbc_decrypt` are the chained-block mode of an invertible block cipher. -/
theorem content_cipher_round_trip (C : BlockCipher) (hC : C.Invertible) (L : TmdLayout)
    (ctr0 chunk titlekey : Mem) (data : List Nat) (size : Nat)
    (hlen : data.length = size) (h16 : size % 16 = 0) :
    (EncryptCiaContentSequential C data size
      (readBytes (GetTmdCtr L ctr0 chunk).2 0 16) titlekey).1 = 0 ∧
    (DecryptCiaContentSequential C
      (EncryptCiaContentSequential C data size
        (readBytes (GetTmdCtr L ctr0 chunk).2 0 16) titlekey).2.1 size
      (readBytes (GetTmdCtr L ctr0 chunk).2 0 16) titlekey).1 = 0 ∧
    (DecryptCiaContentSequential C
      (EncryptCiaContentSequential C data size
        (readBytes (GetTmdCtr L ctr0 chunk).2 0 16) titlekey).2.1 size
      (readBytes (GetTmdCtr L ctr0 chunk).2 0 16) titlekey).2.1 = data := by
  refine ⟨rfl, rfl, ?_⟩
  simp only [DecryptCiaContentSequential, EncryptCiaContentSequential]
  exact cbc_decrypt_encrypt C hC _ _ _ _ (readBytes_length _ _ _) (by omega)

/-- A concrete instance: a 32-byte buffer, the toy cipher and the vector of the sample chunk. -/
theorem content_cipher_round_trip_witness :
    (sampleContent.length = 32 ∧ 32 % 16 = 0) ∧
    (DecryptCiaContentSequential toyCipher
      (EncryptCiaContentSequential toyCipher sampleContent 32
        (readBytes (GetTmdCtr ctrLayout zeroMem sampleChunk).2 0 16) sampleKey).2.1 32
      (readBytes (GetTmdCtr ctrLayout zeroMem sampleChunk).2 0 16) sampleKey).2.1 =
        sampleContent :=
  ⟨⟨by decide, by decide⟩,
    (content_cipher_round_trip toyCipher toyCipher_invertible ctrLayout zeroMem sampleChunk
      sampleKey sampleContent 32 (by decide) (by decide)).2.2⟩

/-- C14, as amended: the content transform does not check the length. For every `size`, a
multiple of 16 or not, `DecryptCiaContentSequential` and `EncryptCiaContentSequential` return 0;
they transform the first `size / 16` blocks of the buffer and leave the remaining `size % 16`
bytes as they were. -/
theorem content_cipher_unchecked (C : BlockCipher) (hC : C.Invertible) (data : List Nat)
    (size : Nat) (ctr : List Nat) (titlekey : Mem) (hctr : ctr.length = 16)
    (hlen : data.length = size) :
    (DecryptCiaContentSequential C data size ctr titlekey).1 = 0 ∧
    (EncryptCiaContentSequential C data size ctr titlekey).1 = 0 ∧
    (DecryptCiaContentSequential C data size ctr titlekey).2.1.drop (16 * (size / 16)) =
      data.drop (16 * (size / 16)) ∧
    (EncryptCiaContentSequential C data size ctr titlekey).2.1.drop (16 * (size / 16)) =
      data.drop (16 * (size / 16)) := by
  refine ⟨rfl, rfl, ?_, ?_⟩
  · simp only [DecryptCiaContentSequential]
    exact cbc_decrypt_tail C hC _ _ _ _ hctr (by omega)
  · simp only [EncryptCiaContentSequential]
    exact cbc_encrypt_tail C hC _ _ _ _ hctr (by omega)

/-- A concrete instance: a buffer of 17 bytes. -/
theorem content_cipher_unchecked_witness :
    (sampleIv.length = 16 ∧ sampleContent17.length = 17) ∧
    (DecryptCiaContentSequential toyCipher sampleContent17 17 sampleIv sampleKey).1 = 0 ∧
    (EncryptCiaContentSequential toyCipher sampleContent17 17 sampleIv sampleKey).1 = 0 :=
  have t := content_cipher_unchecked toyCipher toyCipher_invertible sampleContent17 17 sampleIv
    sampleKey (by decide) (by decide)
  ⟨⟨by decide, by decide⟩, t.1, t.2.1⟩

/-- C14 fails as stated: for a buffer of 17 bytes, a size that is not a multiple of 16, both
transforms return 0, the success value; the seventeenth byte is left as it was. -/
theorem content_cipher_accepts_misaligned :
    17 % 16 ≠ 0 ∧
    (DecryptCiaContentSequential toyCipher sampleContent17 17 sampleIv sampleKey).1 = 0 ∧
    (EncryptCiaContentSequential toyCipher sampleContent17 17 sampleIv sampleKey).1 = 0 ∧
    (EncryptCiaContentSequential toyCipher sampleContent17 17 sampleIv sampleKey).2.1.getD 16 0 =
      sampleContent17.getD 16 0 := by
  decide

/-! ### `BuildCiaCert` (C15, C16) -/

theorem certStage_content (r : FIL × Mem × Nat) (ofs dst btr : Nat) :
    (certStage r ofs dst btr).1.content = r.1.content := by
  simp only [certStage, f_read, f_lseek]
  split <;> rfl

theorem certStage_err (r : FIL × Mem × Nat) (ofs dst btr : Nat) :
    (certStage r ofs dst btr).1.err = r.1.err := by
  simp only [certStage, f_read, f_lseek]
  split <;> rfl

/-- A seek followed by a read of a range that the file holds, without disk error. -/
theorem certStage_ok (r : FIL × Mem × Nat) (ofs dst btr : Nat)
    (herr : r.1.err ofs = false) (hlen : ofs + btr ≤ r.1.content.length) (a : Nat) :
    (certStage r ofs dst btr).2.1 a =
      if dst ≤ a ∧ a < dst + btr then r.1.content.getD (ofs + (a - dst)) 0 else r.2.1 a := by
  have h1 : min ofs r.1.content.length = ofs := by omega
  have h2 : min btr (r.1.content.length - ofs) = btr := by omega
  simp only [certStage, f_read, f_lseek, h1, h2, herr, Bool.false_eq_true, if_false]

/-- A seek followed by a read on a store on which every read fails: the buffer is left as it
was. -/
theorem certStage_failed (r : FIL × Mem × Nat) (ofs dst btr : Nat)
    (herr : ∀ p, r.1.err p = true) :
    (certStage r ofs dst btr).2.1 = r.2.1 ∧ (certStage r ofs dst btr).2.2 = 0 := by
  simp only [certStage, f_read, f_lseek, herr, if_true, and_self]

/-- A seek followed by a read on an empty file: no byte is read. -/
theorem certStage_empty (r : FIL × Mem × Nat) (ofs dst btr : Nat)
    (hempty : r.1.content = []) :
    (certStage r ofs dst btr).2.1 = r.2.1 ∧ (certStage r ofs dst btr).2.2 = 0 := by
  simp only [certStage, f_read, f_lseek, hempty, List.length_nil, Nat.min_zero, Nat.zero_sub]
  split
  · exact ⟨rfl, rfl⟩
  · refine ⟨?_, rfl⟩
    funext a
    simp only [Nat.add_zero]
    rw [if_neg (by omega)]

/-- `BuildCiaCert` on an opened store: the buffer after the four reads, and 0 when the digest
of its `CIA_CERT_SIZE` bytes is the expected one, 1 otherwise. -/
theorem BuildCiaCert_some (K : CiaConsts) (sha : Sha256) (db : FIL) (ciacert : Mem) :
    BuildCiaCert K sha (some db) ciacert =
      (if digestMatches (sha (readBytes (certBlob db ciacert) 0 K.CIA_CERT_SIZE)) then 0
        else 1, certBlob db ciacert) := by
  simp only [BuildCiaCert, certBlob, certStage]
  split <;> first | rfl | simp_all

/-- The buffer after the four reads on a readable store. -/
theorem certBlob_readable (db : FIL) (ciacert : Mem) (hR : db.Readable) (a : Nat) :
    certBlob db ciacert a =
      if a < 0x1F0 then db.content.getD (0x0C10 + a) 0
      else if a < 0x400 then db.content.getD (0x3A00 + (a - 0x1F0)) 0
      else if a < 0x700 then db.content.getD (0x3F10 + (a - 0x400)) 0
      else if a < 0xA00 then db.content.getD (0x3C10 + (a - 0x700)) 0
      else ciacert a := by
  obtain ⟨e1, e2, e3, e4, hlen⟩ := hR
  unfold certBlob
  rw [certStage_ok _ _ _ _ (by simpa only [certStage_err] using e4)
    (by simp only [certStage_content]; omega)]
  rw [certStage_ok _ _ _ _ (by simpa only [certStage_err] using e3)
    (by simp only [certStage_content]; omega)]
  rw [certStage_ok _ _ _ _ (by simpa only [certStage_err] using e2)
    (by simp only [certStage_content]; omega)]
  rw [certStage_ok (db, ciacert, 0) 0x0C10 0x000 0x1F0 e1
    (show 0x0C10 + 0x1F0 ≤ db.content.length by omega)]
  simp only [certStage_content]
  by_cases h1 : a < 0x1F0
  · simp (disch := omega) only [if_pos, if_neg, Nat.sub_zero]
  by_cases h2 : a < 0x400
  · simp (disch := omega) only [if_pos, if_neg]
  by_cases h3 : a < 0x700
  · simp (disch := omega) only [if_pos, if_neg]
  by_cases h4 : a < 0xA00
  · simp (disch := omega) only [if_pos, if_neg]
  · simp (disch := omega) only [if_pos, if_neg]

/-- The buffer after the four reads on a store on which every read fails, or which is empty:
the buffer as it was. -/
theorem certBlob_failed (db : FIL) (ciacert : Mem)
    (h : (∀ p, db.err p = true) ∨ db.content = []) : certBlob db ciacert = ciacert := by
  unfold certBlob
  rcases h with h | h
  · rw [(certStage_failed _ _ _ _ (by simpa only [certStage_err] using h)).1,
      (certStage_failed _ _ _ _ (by simpa only [certStage_err] using h)).1,
      (certStage_failed _ _ _ _ (by simpa only [certStage_err] using h)).1,
      (certStage_failed _ _ _ _ h).1]
  · rw [(certStage_empty _ _ _ _ (by simpa only [certStage_content] using h)).1,
      (certStage_empty _ _ _ _ (by simpa only [certStage_content] using h)).1,
      (certStage_empty _ _ _ _ (by simpa only [certStage_content] using h)).1,
      (certStage_empty _ _ _ _ h).1]

/-- C15: on a store that opens and can be read at the four ranges, `BuildCiaCert` places the
store's bytes from 0x0C10 (0x1F0 bytes), 0x3A00 (0x210 bytes), 0x3F10 (0x300 bytes) and 0x3C10
(0x300 bytes) at the blob offsets 0x000, 0x1F0, 0x400 and 0x700, and it returns 0 exactly when
the SHA-256 of the `CIA_CERT_SIZE` bytes of the blob is the known-good digest; with any other
digest it returns 1. -/
theorem BuildCiaCert_assembles (K : CiaConsts) (sha : Sha256) (db : FIL) (ciacert : Mem)
    (hR : db.Readable) :
    (∀ j, j < 0x1F0 →
      (BuildCiaCert K sha (some db) ciacert).2 (0x000 + j) = db.content.getD (0x0C10 + j) 0) ∧
    (∀ j, j < 0x210 →
      (BuildCiaCert K sha (some db) ciacert).2 (0x1F0 + j) = db.content.getD (0x3A00 + j) 0) ∧
    (∀ j, j < 0x300 →
      (BuildCiaCert K sha (some db) ciacert).2 (0x400 + j) = db.content.getD (0x3F10 + j) 0) ∧
    (∀ j, j < 0x300 →
      (BuildCiaCert K sha (some db) ciacert).2 (0x700 + j) = db.content.getD (0x3C10 + j) 0) ∧
    ((BuildCiaCert K sha (some db) ciacert).1 = 0 ↔
      digestMatches (sha (readBytes (BuildCiaCert K sha (some db) ciacert).2 0
        K.CIA_CERT_SIZE))) ∧
    (¬ digestMatches (sha (readBytes (BuildCiaCert K sha (some db) ciacert).2 0
        K.CIA_CERT_SIZE)) →
      (BuildCiaCert K sha (some db) ciacert).1 = 1) := by
  rw [BuildCiaCert_some]
  refine ⟨?_, ?_, ?_, ?_, ?_, ?_⟩
  · intro j hj
    simp only [certBlob_readable db ciacert hR]
    simp (disch := omega) only [if_pos, if_neg, Nat.zero_add]
  · intro j hj
    simp only [certBlob_readable db ciacert hR]
    simp (disch := omega) only [if_pos, if_neg, Nat.add_sub_cancel_left]
  · intro j hj
    simp only [certBlob_readable db ciacert hR]
    simp (disch := omega) only [if_pos, if_neg, Nat.add_sub_cancel_left]
  · intro j hj
    simp only [certBlob_readable db ciacert hR]
    simp (disch := omega) only [if_pos, if_neg, Nat.add_sub_cancel_left]
  · simp only []
    split <;> simp_all
  · intro h
    simp only []
    rw [if_neg h]

theorem sampleDb_readable : sampleDb.Readable := by
  refine ⟨rfl, rfl, rfl, rfl, ?_⟩
  show 0x4210 ≤ (List.replicate 0x4210 0x5A).length
  rw [List.length_replicate]

/-- A concrete instance: a readable store of 0x4210 bytes. -/
theorem BuildCiaCert_assembles_witness :
    sampleDb.Readable ∧
    ∀ j, j < 0x1F0 →
      (BuildCiaCert ctrConsts toySha (some sampleDb) zeroMem).2 (0x000 + j) =
        sampleDb.content.getD (0x0C10 + j) 0 :=
  ⟨sampleDb_readable,
    (BuildCiaCert_assembles ctrConsts toySha sampleDb zeroMem sampleDb_readable).1⟩

theorem bytesRead_le (fp : FIL) (ofs btr : Nat) : bytesRead fp ofs btr ≤ btr := by
  simp only [bytesRead, f_read, f_lseek]
  split
  · exact Nat.zero_le _
  · exact Nat.min_le_left _ _

theorem bytesRead_congr (fp fp2 : FIL) (ofs btr : Nat) (hc : fp.content = fp2.content)
    (he : fp.err = fp2.err) : bytesRead fp ofs btr = bytesRead fp2 ofs btr := by
  simp only [bytesRead, f_read, f_lseek, hc, he]

/-- One seek and read in general: `bytes_read` bytes of the file reach the buffer, the rest of
the buffer is left as it was. -/
theorem certStage_buf (r : FIL × Mem × Nat) (ofs dst btr a : Nat) :
    (certStage r ofs dst btr).2.1 a =
      if dst ≤ a ∧ a < dst + bytesRead r.1 ofs btr then
        r.1.content.getD (min ofs r.1.content.length + (a - dst)) 0
      else r.2.1 a := by
  by_cases h : r.1.err (min ofs r.1.content.length) = true
  · simp only [certStage, bytesRead, f_read, f_lseek, h, if_true]
    rw [if_neg (by omega)]
  · simp only [certStage, bytesRead, f_read, f_lseek, h, if_false, Bool.false_eq_true]

theorem certStage_bytesRead (r : FIL × Mem × Nat) (ofs dst btr ofs2 btr2 : Nat) :
    bytesRead (certStage r ofs dst btr).1 ofs2 btr2 = bytesRead r.1 ofs2 btr2 :=
  bytesRead_congr _ _ _ _ (certStage_content r ofs dst btr) (certStage_err r ofs dst btr)

/-- The buffer after the four reads on any opened store. -/
theorem certBlob_general (db : FIL) (ciacert : Mem) (a : Nat) :
    certBlob db ciacert a =
      if 0x700 ≤ a ∧ a < 0x700 + bytesRead db 0x3C10 0x300 then
        db.content.getD (min 0x3C10 db.content.length + (a - 0x700)) 0
      else if 0x400 ≤ a ∧ a < 0x400 + bytesRead db 0x3F10 0x300 then
        db.content.getD (min 0x3F10 db.content.length + (a - 0x400)) 0
      else if 0x1F0 ≤ a ∧ a < 0x1F0 + bytesRead db 0x3A00 0x210 then
        db.content.getD (min 0x3A00 db.content.length + (a - 0x1F0)) 0
      else if 0x000 ≤ a ∧ a < 0x000 + bytesRead db 0x0C10 0x1F0 then
        db.content.getD (min 0x0C10 db.content.length + (a - 0x000)) 0
      else ciacert a := by
  unfold certBlob
  rw [certStage_buf, certStage_buf, certStage_buf, certStage_buf]
  simp only [certStage_bytesRead, certStage_content]

/-- The bytes of a range that a failed or short read did not deliver keep the value the buffer
had before the call. -/
theorem certBlob_unread (db : FIL) (ciacert : Mem) (a : Nat)
    (h : (0x000 + bytesRead db 0x0C10 0x1F0 ≤ a ∧ a < 0x000 + 0x1F0) ∨
      (0x1F0 + bytesRead db 0x3A00 0x210 ≤ a ∧ a < 0x1F0 + 0x210) ∨
      (0x400 + bytesRead db 0x3F10 0x300 ≤ a ∧ a < 0x400 + 0x300) ∨
      (0x700 + bytesRead db 0x3C10 0x300 ≤ a ∧ a < 0x700 + 0x300)) :
    certBlob db ciacert a = ciacert a := by
  have l1 := bytesRead_le db 0x0C10 0x1F0
  have l2 := bytesRead_le db 0x3A00 0x210
  have l3 := bytesRead_le db 0x3F10 0x300
  have l4 := bytesRead_le db 0x3C10 0x300
  rw [certBlob_general]
  simp (disch := omega) only [if_neg]

/-- A store that held the four ranges, read once more into the buffer its bytes were
assembled in, with a disk error at the third range: the buffer stays as it is. -/
theorem certBlob_reread (db : FIL) (ciacert : Mem) (hR : db.Readable) :
    certBlob (withError db 0x3F10) (certBlob db ciacert) = certBlob db ciacert ∧
    bytesRead (withError db 0x3F10) 0x3F10 0x300 = 0 := by
  obtain ⟨e1, e2, e3, e4, hlen⟩ := hR
  have m1 : min 0x0C10 db.content.length = 0x0C10 := by omega
  have m2 : min 0x3A00 db.content.length = 0x3A00 := by omega
  have m3 : min 0x3F10 db.content.length = 0x3F10 := by omega
  have m4 : min 0x3C10 db.content.length = 0x3C10 := by omega
  have b1 : bytesRead (withError db 0x3F10) 0x0C10 0x1F0 = 0x1F0 := by
    simp only [bytesRead, f_read, f_lseek, withError, m1, e1]
    simp
    omega
  have b2 : bytesRead (withError db 0x3F10) 0x3A00 0x210 = 0x210 := by
    simp only [bytesRead, f_read, f_lseek, withError, m2, e2]
    simp
    omega
  have b3 : bytesRead (withError db 0x3F10) 0x3F10 0x300 = 0 := by
    simp only [bytesRead, f_read, f_lseek, withError, m3]
    simp
  have b4 : bytesRead (withError db 0x3F10) 0x3C10 0x300 = 0x300 := by
    simp only [bytesRead, f_read, f_lseek, withError, m4, e4]
    simp
    omega
  refine ⟨?_, b3⟩
  funext a
  rw [certBlob_general, b1, b2, b3, b4]
  have hc : (withError db 0x3F10).content = db.content := rfl
  rw [hc, m1, m2, m4, certBlob_readable db ciacert ⟨e1, e2, e3, e4, hlen⟩]
  by_cases h4 : 0x700 ≤ a ∧ a < 0x700 + 0x300
  · simp (disch := omega) only [if_pos, if_neg]
  by_cases h2 : 0x1F0 ≤ a ∧ a < 0x1F0 + 0x210
  · simp (disch := omega) only [if_pos, if_neg]
  by_cases h1 : a < 0x1F0
  · simp (disch := omega) only [if_pos, if_neg, Nat.sub_zero]
  · simp (disch := omega) only [if_pos, if_neg]

/-- C16, as amended: `BuildCiaCert` returns 1 and leaves the buffer alone when the store cannot
be opened. On an opened store the results of the reads are not looked at: whatever the reads
did, the call returns 0 exactly when the SHA-256 of the resulting buffer is the known-good
digest and 1 otherwise. The bytes of a range that a failed or short read did not deliver
(those from `bytes_read` on) keep the value the buffer had before the call; when every read
fails, or the store is empty, the whole buffer keeps its previous bytes. So after a failed or
short read the call fails unless the resulting buffer, with its previous bytes in the places
not read, has the known-good digest. -/
theorem BuildCiaCert_failures (K : CiaConsts) (sha : Sha256) (ciacert : Mem) :
    BuildCiaCert K sha none ciacert = (1, ciacert) ∧
    (∀ db : FIL,
      ((BuildCiaCert K sha (some db) ciacert).1 = 0 ↔
        digestMatches (sha (readBytes (BuildCiaCert K sha (some db) ciacert).2 0
          K.CIA_CERT_SIZE))) ∧
      ((BuildCiaCert K sha (some db) ciacert).1 = 1 ↔
        ¬ digestMatches (sha (readBytes (BuildCiaCert K sha (some db) ciacert).2 0
          K.CIA_CERT_SIZE)))) ∧
    (∀ (db : FIL) (a : Nat),
      ((0x000 + bytesRead db 0x0C10 0x1F0 ≤ a ∧ a < 0x000 + 0x1F0) ∨
        (0x1F0 + bytesRead db 0x3A00 0x210 ≤ a ∧ a < 0x1F0 + 0x210) ∨
        (0x400 + bytesRead db 0x3F10 0x300 ≤ a ∧ a < 0x400 + 0x300) ∨
        (0x700 + bytesRead db 0x3C10 0x300 ≤ a ∧ a < 0x700 + 0x300)) →
      (BuildCiaCert K sha (some db) ciacert).2 a = ciacert a) ∧
    (∀ db : FIL, ((∀ p, db.err p = true) ∨ db.content = []) →
      (BuildCiaCert K sha (some db) ciacert).2 = ciacert ∧
      ((BuildCiaCert K sha (some db) ciacert).1 = 1 ↔
        ¬ digestMatches (sha (readBytes ciacert 0 K.CIA_CERT_SIZE)))) := by
  refine ⟨rfl, ?_, ?_, ?_⟩
  · intro db
    rw [BuildCiaCert_some]
    simp only []
    constructor <;> split <;> simp_all
  · intro db a h
    rw [BuildCiaCert_some]
    exact certBlob_unread db ciacert a h
  · intro db h
    rw [BuildCiaCert_some, certBlob_failed db ciacert h]
    refine ⟨rfl, ?_⟩
    simp only []
    split <;> simp_all

/-- A concrete instance: no store; a store on which every read fails; and the sample store
with a disk error at the third range, whose 0x300 bytes keep what the buffer held. -/
theorem BuildCiaCert_failures_witness :
    BuildCiaCert ctrConsts toySha none dirtyMem = (1, dirtyMem) ∧
    (BuildCiaCert ctrConsts toySha (some unreadableDb) dirtyMem).2 = dirtyMem ∧
    (BuildCiaCert ctrConsts toySha (some (withError sampleDb 0x3F10)) dirtyMem).2 0x400 =
      dirtyMem 0x400 :=
  have t := BuildCiaCert_failures ctrConsts toySha dirtyMem
  ⟨t.1, (t.2.2.2 unreadableDb (Or.inl fun _ => rfl)).1,
    t.2.2.1 (withError sampleDb 0x3F10) 0x400
      (Or.inr (Or.inr (Or.inl
        ⟨by rw [(certBlob_reread sampleDb dirtyMem sampleDb_readable).2], by omega⟩)))⟩

/-- C16 fails as stated: whatever the digest function is, after a call of `BuildCiaCert` that
succeeded on a store, a further call on the same buffer succeeds as well although its reads
fail: on a store on which every read fails (`bytes_read` is 0 each time), on an empty store
(every read returns 0 of the bytes asked for), and on the first store itself, readable before,
with a disk error at the third range. The buffer then still holds the certificate chain of the
first call, and only its digest is looked at. -/
theorem BuildCiaCert_success_after_failed_read :
    (bytesRead unreadableDb 0x0C10 0x1F0 = 0 ∧ bytesRead emptyDb 0x0C10 0x1F0 = 0) ∧
    (∀ (sha : Sha256) (db : FIL) (buf : Mem),
      (BuildCiaCert ctrConsts sha (some db) buf).1 = 0 →
      (BuildCiaCert ctrConsts sha (some unreadableDb)
        (BuildCiaCert ctrConsts sha (some db) buf).2).1 = 0 ∧
      (BuildCiaCert ctrConsts sha (some emptyDb)
        (BuildCiaCert ctrConsts sha (some db) buf).2).1 = 0) ∧
    (∀ (sha : Sha256) (db : FIL) (buf : Mem), db.Readable →
      (BuildCiaCert ctrConsts sha (some db) buf).1 = 0 →
      bytesRead (withError db 0x3F10) 0x3F10 0x300 = 0 ∧
      (BuildCiaCert ctrConsts sha (some (withError db 0x3F10))
        (BuildCiaCert ctrConsts sha (some db) buf).2).1 = 0) := by
  refine ⟨⟨?_, ?_⟩, ?_, ?_⟩
  · exact (certStage_failed (unreadableDb, fun _ => 0, 0) 0x0C10 0x000 0x1F0 (fun _ => rfl)).2
  · exact (certStage_empty (emptyDb, fun _ => 0, 0) 0x0C10 0x000 0x1F0 rfl).2
  · intro sha db buf h
    rw [BuildCiaCert_some] at h
    simp only [] at h
    have hd : digestMatches (sha (readBytes (certBlob db buf) 0 ctrConsts.CIA_CERT_SIZE)) := by
      by_contra hn
      rw [if_neg hn] at h
      exact absurd h (by decide)
    rw [BuildCiaCert_some]
    simp only []
    rw [BuildCiaCert_some, certBlob_failed unreadableDb _ (Or.inl fun _ => rfl),
      BuildCiaCert_some, certBlob_failed emptyDb _ (Or.inr rfl)]
    simp only []
    rw [if_pos hd]
    exact ⟨rfl, rfl⟩
  · intro sha db buf hR h
    rw [BuildCiaCert_some] at h
    simp only [] at h
    have hd : digestMatches (sha (readBytes (certBlob db buf) 0 ctrConsts.CIA_CERT_SIZE)) := by
      by_contra hn
      rw [if_neg hn] at h
      exact absurd h (by decide)
    refine ⟨(certBlob_reread db buf hR).2, ?_⟩
    rw [BuildCiaCert_some]
    simp only []
    rw [BuildCiaCert_some, (certBlob_reread db buf hR).1]
    rw [if_pos hd]

/-! ### `BuildCiaMeta` (C17) -/

theorem two_div_pow (k : Nat) (hk : 0 < k) : 2 / 256 ^ k % 256 = 0 := by
  have h : 256 ^ 1 ≤ 256 ^ k := Nat.pow_le_pow_right (by norm_num) hk
  rw [Nat.div_eq_of_lt (by omega)]

/-- The buffer after `BuildCiaMeta`: the described section on the `sizeof(CiaMeta)` bytes,
the old contents behind them. -/
theorem BuildCiaMeta_bytes (M : MetaLayout) (cmeta : Mem) (exthdr smdh : Option Mem)
    (hM : M.Valid) (a : Nat) :
    (BuildCiaMeta M cmeta exthdr smdh).2 a =
      if a < M.sizeof_CiaMeta then metaBytes M exthdr smdh a else cmeta a := by
  obtain ⟨v1, v2, v3, v4⟩ := hM
  have hcv : ∀ k, M.core_version < k → 2 / 256 ^ (k - M.core_version) % 256 = 0 :=
    fun k hk => two_div_pow _ (by omega)
  have hcv0 : 2 / 256 ^ (M.core_version - M.core_version) % 256 = 2 := by
    rw [Nat.sub_self]
    rfl
  by_cases h1 : M.dependencies ≤ a ∧ a < M.dependencies + M.sizeof_dependencies
  · cases exthdr <;> cases smdh <;>
      simp (disch := omega) only [BuildCiaMeta, metaBytes, memset, memcpy, storeLE, if_pos,
        if_neg, Nat.zero_mod]
  by_cases h2 : a = M.core_version
  · subst h2
    cases exthdr <;> cases smdh <;>
      simp (disch := omega) only [BuildCiaMeta, metaBytes, memset, memcpy, storeLE, if_pos,
        if_neg, hcv0, if_true]
  by_cases h3 : M.smdh ≤ a ∧ a < M.smdh + M.sizeof_smdh
  · cases exthdr <;> cases smdh <;>
      simp (disch := omega) only [BuildCiaMeta, metaBytes, memset, memcpy, storeLE, if_pos,
        if_neg, Nat.zero_mod]
  by_cases h4 : M.core_version ≤ a ∧ a < M.core_version + M.sizeof_core_version
  · have := hcv a (by omega)
    cases exthdr <;> cases smdh <;>
      simp (disch := omega) only [BuildCiaMeta, metaBytes, memset, memcpy, storeLE, if_pos,
        if_neg, this]
  by_cases h5 : a < M.sizeof_CiaMeta
  · cases exthdr <;> cases smdh <;>
      simp (disch := omega) only [BuildCiaMeta, metaBytes, memset, memcpy, storeLE, if_pos,
        if_neg, Nat.zero_mod]
  · cases exthdr <;> cases smdh <;>
      simp (disch := omega) only [BuildCiaMeta, metaBytes, memset, memcpy, storeLE, if_pos,
        if_neg, Nat.zero_mod]

/-- C17: for every pair of optional inputs `BuildCiaMeta` returns 0 and leaves, on the
`sizeof(CiaMeta)` bytes of the output, the section `metaBytes`: `core_version` is 2
(little-endian), the dependency table holds the `sizeof(dependencies)` bytes from offset 0x40
of the exheader when one is given, the icon blob holds the first `sizeof(smdh)` bytes of the
SMDH buffer when one is given, and every other byte is zero; the section of an absent input is
all zero, whatever the output buffer held before. -/
theorem BuildCiaMeta_section (M : MetaLayout) (cmeta : Mem) (exthdr smdh : Option Mem)
    (hM : M.Valid) :
    (BuildCiaMeta M cmeta exthdr smdh).1 = 0 ∧
    (∀ a, a < M.sizeof_CiaMeta →
      (BuildCiaMeta M cmeta exthdr smdh).2 a = metaBytes M exthdr smdh a) ∧
    ((BuildCiaMeta M cmeta exthdr smdh).2 M.core_version = 2 ∧
      ∀ j, 0 < j → j < M.sizeof_core_version →
        (BuildCiaMeta M cmeta exthdr smdh).2 (M.core_version + j) = 0) ∧
    (∀ e, exthdr = some e → ∀ j, j < M.sizeof_dependencies →
      (BuildCiaMeta M cmeta exthdr smdh).2 (M.dependencies + j) = e (0x40 + j)) ∧
    (exthdr = none → ∀ j, j < M.sizeof_dependencies →
      (BuildCiaMeta M cmeta exthdr smdh).2 (M.dependencies + j) = 0) ∧
    (∀ s, smdh = some s → ∀ j, j < M.sizeof_smdh →
      (BuildCiaMeta M cmeta exthdr smdh).2 (M.smdh + j) = s j) ∧
    (smdh = none → ∀ j, j < M.sizeof_smdh →
      (BuildCiaMeta M cmeta exthdr smdh).2 (M.smdh + j) = 0) := by
  have hb := BuildCiaMeta_bytes M cmeta exthdr smdh hM
  obtain ⟨v1, v2, v3, v4⟩ := hM
  refine ⟨rfl, ?_, ⟨?_, ?_⟩, ?_, ?_, ?_, ?_⟩
  · intro a ha
    rw [hb, if_pos ha]
  · rw [hb]
    simp (disch := omega) only [metaBytes, if_pos, if_neg, if_true]
  · intro j hj0 hj
    rw [hb]
    simp (disch := omega) only [metaBytes, if_pos, if_neg]
  · intro e he j hj
    subst he
    rw [hb]
    simp (disch := omega) only [metaBytes, if_pos, if_neg, Nat.add_sub_cancel_left]
  · intro he j hj
    subst he
    rw [hb]
    simp (disch := omega) only [metaBytes, if_pos, if_neg]
  · intro s hs j hj
    subst hs
    rw [hb]
    simp (disch := omega) only [metaBytes, if_pos, if_neg, Nat.add_sub_cancel_left]
  · intro hs j hj
    subst hs
    rw [hb]
    simp (disch := omega) only [metaBytes, if_pos, if_neg]

/-- A concrete instance: the CTR layout, an exheader, no SMDH, and an output buffer that held
`0xAA` bytes. -/
theorem BuildCiaMeta_section_witness :
    ctrMeta.Valid ∧
    (BuildCiaMeta ctrMeta dirtyMem (some sampleExthdr) none).2 ctrMeta.core_version = 2 ∧
    (∀ j, j < ctrMeta.sizeof_dependencies →
      (BuildCiaMeta ctrMeta dirtyMem (some sampleExthdr) none).2 (ctrMeta.dependencies + j) =
        sampleExthdr (0x40 + j)) ∧
    (∀ j, j < ctrMeta.sizeof_smdh →
      (BuildCiaMeta ctrMeta dirtyMem (some sampleExthdr) none).2 (ctrMeta.smdh + j) = 0) :=
  have t := BuildCiaMeta_section ctrMeta dirtyMem (some sampleExthdr) none (by decide)
  ⟨by decide, t.2.2.1.1, t.2.2.2.1 sampleExthdr rfl, t.2.2.2.2.2.2 rfl⟩

/-! ### The frame of `FixTmdHashes` (C18) -/

/-- C18: `FixTmdHashes` changes nothing but hashes. After the call the content count, every
`cmd_count`, every byte of the chunk list (the bytes behind the fixed record, with each chunk's
index, size and hash) and every byte outside `contentinfo_hash` and the 64 entry hashes are
unchanged; the hash of an entry the walk did not reach is unchanged; a byte that differs lies in
`contentinfo_hash` or in the hash of an entry the walk reached. -/
theorem FixTmdHashes_changes_only_hashes (K : CiaConsts) (L : TmdLayout) (sha : Sha256)
    (tmd : Mem) (hV : L.Valid K) :
    getbe16 (FixTmdHashes K L sha tmd).2 L.content_count = getbe16 tmd L.content_count ∧
    (∀ i, cmdCount L (FixTmdHashes K L sha tmd).2 i = cmdCount L tmd i) ∧
    (∀ a, K.sizeof_TitleMetaData ≤ a → (FixTmdHashes K L sha tmd).2 a = tmd a) ∧
    (∀ a, ¬ IsHashByte L a → (FixTmdHashes K L sha tmd).2 a = tmd a) ∧
    (∀ i, i < 64 → getbe16 tmd L.content_count ≤ cursor L tmd i →
      ∀ t, t < 0x20 → (FixTmdHashes K L sha tmd).2 (infoHash L i + t) = tmd (infoHash L i + t)) ∧
    (∀ a, (FixTmdHashes K L sha tmd).2 a ≠ tmd a →
      (L.contentinfo_hash ≤ a ∧ a < L.contentinfo_hash + 0x20) ∨
      ∃ i, i < 64 ∧ cursor L tmd i < getbe16 tmd L.content_count ∧
        infoHash L i ≤ a ∧ a < infoHash L i + 0x20) := by
  have hfr := FixTmdHashes_frame K L sha tmd hV
  refine ⟨?_, ?_, ?_, hfr, ?_, ?_⟩
  · exact getbe16_congr _ _ _ (hfr _ (not_hash_content_count K L hV 0 (by omega)))
      (hfr _ (not_hash_content_count K L hV 1 (by omega)))
  · intro i
    exact getbe16_congr _ _ _ (hfr _ (not_hash_cmdCount K L hV i 0 (by omega)))
      (hfr _ (not_hash_cmdCount K L hV i 1 (by omega)))
  · intro a ha
    exact hfr a (not_hash_chunk K L hV a ha)
  · intro i hi hc t ht
    rw [FixTmdHashes_hash_at K L sha tmd hV i t hi ht, if_neg (by omega)]
  · intro a hne
    by_cases hh : IsHashByte L a
    · rcases hh with h | ⟨i, hi, h1, h2⟩
      · exact Or.inl h
      · refine Or.inr ⟨i, hi, ?_, h1, h2⟩
        by_contra hc
        apply hne
        have e : a = infoHash L i + (a - infoHash L i) := by omega
        rw [e, FixTmdHashes_hash_at K L sha tmd hV i _ hi (by omega), if_neg hc]
    · exact absurd (hfr a hh) hne

/-- A concrete instance: in the sample TMD with one content the chunk record and the hash of
entry 1, which the walk does not reach, are unchanged. -/
theorem FixTmdHashes_changes_only_hashes_witness :
    ctrLayout.Valid ctrConsts ∧
    (∀ a, ctrConsts.sizeof_TitleMetaData ≤ a →
      (FixTmdHashes ctrConsts ctrLayout toySha sampleTmd).2 a = sampleTmd a) ∧
    (∀ t, t < 0x20 →
      (FixTmdHashes ctrConsts ctrLayout toySha sampleTmd).2 (infoHash ctrLayout 1 + t) =
        sampleTmd (infoHash ctrLayout 1 + t)) :=
  have t := FixTmdHashes_changes_only_hashes ctrConsts ctrLayout toySha sampleTmd (by decide)
  ⟨by decide, t.2.2.1, t.2.2.2.2.1 1 (by decide) (by decide)⟩

/-! ### The packaging path (C20) -/

/-- The loop of `FixCiaHeaderForTmd` does not touch the fixed sizes. -/
theorem FixCiaHeaderForTmd_loop_fixed (K : CiaConsts) (L : TmdLayout) (tmd : Mem)
    (c fuel i : Nat) (h : CiaHeader) :
    (FixCiaHeaderForTmd_loop K L tmd c fuel i h).size_header = h.size_header ∧
    (FixCiaHeaderForTmd_loop K L tmd c fuel i h).size_cert = h.size_cert ∧
    (FixCiaHeaderForTmd_loop K L tmd c fuel i h).size_ticket = h.size_ticket ∧
    (FixCiaHeaderForTmd_loop K L tmd c fuel i h).size_meta = h.size_meta := by
  induction fuel generalizing i h with
  | zero => exact ⟨rfl, rfl, rfl, rfl⟩
  | succ fuel ih =>
    rw [FixCiaHeaderForTmd_loop_step]
    split
    · exact ih _ _
    · exact ⟨rfl, rfl, rfl, rfl⟩

/-- The size fields of a header built by `BuildCiaHeader` and fixed by `FixCiaHeaderForTmd`. -/
theorem FixCiaHeaderForTmd_BuildCiaHeader (K : CiaConsts) (L : TmdLayout) (header : CiaHeader)
    (tmd : Mem) :
    (FixCiaHeaderForTmd K L (BuildCiaHeader K header).2 tmd).2.size_header =
      K.sizeof_CiaHeader ∧
    (FixCiaHeaderForTmd K L (BuildCiaHeader K header).2 tmd).2.size_cert = K.CIA_CERT_SIZE ∧
    (FixCiaHeaderForTmd K L (BuildCiaHeader K header).2 tmd).2.size_ticket = K.sizeof_Ticket ∧
    (FixCiaHeaderForTmd K L (BuildCiaHeader K header).2 tmd).2.size_meta = 0 ∧
    (FixCiaHeaderForTmd K L (BuildCiaHeader K header).2 tmd).2.size_tmd =
      CIA_TMD_SIZE_N K (getbe16 tmd L.content_count) ∧
    (FixCiaHeaderForTmd K L (BuildCiaHeader K header).2 tmd).2.size_content =
      sizeSum K L tmd (getbe16 tmd L.content_count) % 2 ^ 64 := by
  simp only [FixCiaHeaderForTmd]
  refine ⟨?_, ?_, ?_, ?_, ?_, ?_⟩
  · rw [(FixCiaHeaderForTmd_loop_fixed K L tmd _ _ _ _).1]
    rfl
  · rw [(FixCiaHeaderForTmd_loop_fixed K L tmd _ _ _ _).2.1]
    rfl
  · rw [(FixCiaHeaderForTmd_loop_fixed K L tmd _ _ _ _).2.2.1]
    rfl
  · rw [(FixCiaHeaderForTmd_loop_fixed K L tmd _ _ _ _).2.2.2]
    rfl
  · rw [FixCiaHeaderForTmd_loop_size_tmd]
  · exact FixCiaHeaderForTmd_loop_size_content K L tmd _ _ 0 _ (by omega) rfl

/-- C20, as amended: a header fresh from `BuildCiaHeader` is rejected by `ValidateCiaHeader`;
for every TMD whose content count `c` satisfies `1 ≤ c ≤ CIA_MAX_CONTENTS` and whose declared
chunk sizes have a sum that is not a multiple of `2 ^ 64` (for instance a nonzero sum below
`2 ^ 64`), the header obtained by `BuildCiaHeader` followed by `FixCiaHeaderForTmd` is
accepted. -/
theorem packaging_header_accepted (K : CiaConsts) (L : TmdLayout) (header : CiaHeader)
    (tmd : Mem) (hK : K.MacrosAgree) :
    ValidateCiaHeader K (BuildCiaHeader K header).2 = 1 ∧
    (1 ≤ getbe16 tmd L.content_count → getbe16 tmd L.content_count ≤ K.CIA_MAX_CONTENTS →
      sizeSum K L tmd (getbe16 tmd L.content_count) % 2 ^ 64 ≠ 0 →
      ValidateCiaHeader K (FixCiaHeaderForTmd K L (BuildCiaHeader K header).2 tmd).2 = 0) ∧
    (1 ≤ getbe16 tmd L.content_count → getbe16 tmd L.content_count ≤ K.CIA_MAX_CONTENTS →
      sizeSum K L tmd (getbe16 tmd L.content_count) ≠ 0 →
      sizeSum K L tmd (getbe16 tmd L.content_count) < 2 ^ 64 →
      ValidateCiaHeader K (FixCiaHeaderForTmd K L (BuildCiaHeader K header).2 tmd).2 = 0) := by
  obtain ⟨m1, m2, m3, m4, m5⟩ := hK
  have hacc : 1 ≤ getbe16 tmd L.content_count →
      getbe16 tmd L.content_count ≤ K.CIA_MAX_CONTENTS →
      sizeSum K L tmd (getbe16 tmd L.content_count) % 2 ^ 64 ≠ 0 →
      ValidateCiaHeader K (FixCiaHeaderForTmd K L (BuildCiaHeader K header).2 tmd).2 = 0 := by
    intro h1 h2 h3
    obtain ⟨f1, f2, f3, f4, f5, f6⟩ := FixCiaHeaderForTmd_BuildCiaHeader K L header tmd
    have hle := Nat.mul_le_mul_right K.sizeof_TmdContentChunk h2
    have hge := Nat.mul_le_mul_right K.sizeof_TmdContentChunk h1
    have hN : CIA_TMD_SIZE_N K (getbe16 tmd L.content_count) =
        K.sizeof_TitleMetaData + getbe16 tmd L.content_count * K.sizeof_TmdContentChunk := by
      unfold CIA_TMD_SIZE_N
      exact Nat.mod_eq_of_lt (by omega)
    unfold ValidateCiaHeader
    rw [f1, f2, f3, f4, f5, f6, hN, if_neg]
    omega
  refine ⟨?_, hacc, ?_⟩
  · simp only [ValidateCiaHeader, BuildCiaHeader]
    rw [if_pos]
    simp
  · intro h1 h2 h3 h4
    exact hacc h1 h2 (by rw [Nat.mod_eq_of_lt h4]; exact h3)

/-- A concrete instance: the sample TMD with one chunk of declared size 0x1000. -/
theorem packaging_header_accepted_witness :
    (ctrConsts.MacrosAgree ∧ 1 ≤ getbe16 sampleTmd ctrLayout.content_count ∧
      getbe16 sampleTmd ctrLayout.content_count ≤ ctrConsts.CIA_MAX_CONTENTS ∧
      sizeSum ctrConsts ctrLayout sampleTmd (getbe16 sampleTmd ctrLayout.content_count) %
        2 ^ 64 ≠ 0) ∧
    ValidateCiaHeader ctrConsts
      (FixCiaHeaderForTmd ctrConsts ctrLayout (BuildCiaHeader ctrConsts zeroHeader).2
        sampleTmd).2 = 0 :=
  ⟨⟨by decide, by decide, by decide, by decide⟩,
    (packaging_header_accepted ctrConsts ctrLayout zeroHeader sampleTmd (by decide)).2.1
      (by decide) (by decide) (by decide)⟩

/-- C20 fails as stated: the TMD with two chunks of declared sizes `2 ^ 64 - 1` and 1 has a
content count within the limit and declared sizes with the nonzero sum `2 ^ 64`, and the header
obtained by `BuildCiaHeader` followed by `FixCiaHeaderForTmd` has `size_content = 0` and is
rejected by `ValidateCiaHeader`. -/
theorem packaging_header_rejected_on_wrap :
    1 ≤ getbe16 overflowTmd ctrLayout.content_count ∧
    getbe16 overflowTmd ctrLayout.content_count ≤ ctrConsts.CIA_MAX_CONTENTS ∧
    sizeSum ctrConsts ctrLayout overflowTmd (getbe16 overflowTmd ctrLayout.content_count) ≠ 0 ∧
    (FixCiaHeaderForTmd ctrConsts ctrLayout (BuildCiaHeader ctrConsts zeroHeader).2
      overflowTmd).2.size_content = 0 ∧
    ValidateCiaHeader ctrConsts
      (FixCiaHeaderForTmd ctrConsts ctrLayout (BuildCiaHeader ctrConsts zeroHeader).2
        overflowTmd).2 = 1 := by
  decide

end Cia
